import Mathlib

/-!
Verification development for the scinobo-fos-taxonomy core:
the `MultiGraph` store (`src/validator/utils/multigraph.py`) and the
venue-name normalizer (`src/validator/utils/venue_parser.py`).

The Python code is shallowly embedded: Python dicts become insertion-ordered
association lists (matching Python 3.7+ dict ordering), float weights become
rationals, and runtime exceptions (`KeyError`, `ZeroDivisionError`,
`IndexError`) become an explicit `Except PyErr` result.  Loops whose Python
form is a comprehension or a for-loop over a list become structural
recursions in the same element order; an exception raised mid-loop is the
`.error` result of the recursion.  The graph container semantics (node/edge
dicts, auto-assigned parallel-edge keys) follow the documented behaviour of
`networkx.MultiDiGraph`, which the source class extends.
-/

/-- Python runtime exceptions that the embedded code can raise. -/
inductive PyErr where
  | keyError
  | zeroDivision
  | indexError
deriving DecidableEq, Repr

deriving instance DecidableEq for Except

/-- Association-list lookup: first binding wins, mirroring a Python dict
(whose keys are unique, so first = only). -/
def alookup {α : Type} : List (String × α) → String → Option α
  | [], _ => none
  | (k, v) :: rest, key => if k = key then some v else alookup rest key

/-- Python dict assignment `d[k] = v`: update the binding in place (keeping
its position) if present, else append a new binding at the end. -/
def aset {α : Type} : List (String × α) → String → α → List (String × α)
  | [], k, v => [(k, v)]
  | (k', v') :: rest, k, v =>
      if k' = k then (k', v) :: rest else (k', v') :: aset rest k v

/-- The `try: d[k] += x except KeyError: d[k] = x` idiom used for
`aggregate_dict` in `infer_layer`: add to the existing binding in place,
or append a fresh one. -/
def aadd : List (String × Rat) → String → Rat → List (String × Rat)
  | [], k, x => [(k, x)]
  | (k', v) :: rest, k, x =>
      if k' = k then (k', v + x) :: rest else (k', v) :: aadd rest k x

/-- One keyed parallel edge of the multigraph: source node, target node,
the integer key discriminating parallel edges, and the attribute dict
(relation-type name to float weight, modelled as `Rat`). -/
structure MGEdge where
  src : String
  tgt : String
  key : Nat
  attrs : List (String × Rat)
deriving DecidableEq, Repr

/-- The in-memory state of the `MultiGraph` class: the node dict (node id to
boolean role-tag attributes) and the edge store, both in insertion order. -/
structure MultiGraph where
  nodes : List (String × List (String × Bool))
  edges : List MGEdge
deriving DecidableEq, Repr

/-- The empty graph (a freshly constructed `MultiGraph()`). -/
def MultiGraph.empty : MultiGraph := ⟨[], []⟩

/-- One node attribute (`self.nodes[n][a]`), `none` when the node or the
attribute key is absent (Python `KeyError`). -/
def nodeAttr (g : MultiGraph) (n a : String) : Option Bool :=
  (alookup g.nodes n).bind (fun attrs => alookup attrs a)

/-- `add_node` / `add_nodes_from` for a single node: inserts the node with an
empty attribute dict when absent, keeps existing attributes otherwise. -/
def addNodePlain (g : MultiGraph) (n : String) : MultiGraph :=
  match alookup g.nodes n with
  | some _ => g
  | none => { g with nodes := g.nodes ++ [(n, [])] }

/-- Helper for `setNodeAttr`: update the attribute dict of the first node
entry with the given id. -/
def setNodeAttrList (n a : String) (b : Bool) :
    List (String × List (String × Bool)) → List (String × List (String × Bool))
  | [] => []
  | (n', attrs) :: rest =>
      if n' = n then (n', aset attrs a b) :: rest
      else (n', attrs) :: setNodeAttrList n a b rest

/-- `self.nodes[n][a] = b`.  In `add_entities` the node is always present
(it was added just before); on an absent node this is a no-op. -/
def setNodeAttr (g : MultiGraph) (n a : String) (b : Bool) : MultiGraph :=
  { g with nodes := setNodeAttrList n a b g.nodes }

/-- Outgoing edges of a node, in insertion order (networkx iterates the
adjacency dicts in insertion order). -/
def edgesFrom (g : MultiGraph) (u : String) : List MGEdge :=
  g.edges.filter (fun e => e.src = u)

/-- The keys of the parallel edges between `u` and `v` (networkx
`self._adj[u][v].keys()`). -/
def keysBetween (g : MultiGraph) (u v : String) : List Nat :=
  (g.edges.filter (fun e => e.src = u ∧ e.tgt = v)).map MGEdge.key

/-- Fuelled search for the first free integer key (networkx
`MultiGraph.new_edge_key`: `key = len(keydict)` bumped while taken; the fuel
`len + 1` always suffices by pigeonhole). -/
def freshFrom (ks : List Nat) : Nat → Nat → Nat
  | k, 0 => k
  | k, fuel + 1 => if k ∈ ks then freshFrom ks (k + 1) fuel else k

/-- networkx `new_edge_key(u, v)`. -/
def newEdgeKey (g : MultiGraph) (u v : String) : Nat :=
  let ks := keysBetween g u v
  freshFrom ks ks.length (ks.length + 1)

/-- networkx `add_edge(u, v, **attrs)` with no explicit key: ensure both
endpoints exist as nodes, then append a fresh parallel edge under an
auto-assigned key. -/
def addEdgeAuto (g : MultiGraph) (u v : String) (attrs : List (String × Rat)) :
    MultiGraph :=
  let g1 := addNodePlain (addNodePlain g u) v
  { g1 with edges := g1.edges ++ [⟨u, v, newEdgeKey g1 u v, attrs⟩] }

/-- Sum of the raw counts of one inner mapping (`sum(list(v.values()))`). -/
def sumCounts (v : List (String × Rat)) : Rat :=
  (v.map (fun p => p.2)).sum

/-- The edge list comprehension at `multigraph.py:109`, for one source `k`
with inner mapping `v` and precomputed denominator `total`:
`[(k, t, {R: v[t] / total}) for t in v if v[t] >= cutoff if k if t]`.
Evaluating the weight with `total = 0` raises `ZeroDivisionError`. -/
def edgeListForAux (R : String) (cutoff : Rat) (k : String) (total : Rat) :
    List (String × Rat) → Except PyErr (List (String × String × List (String × Rat)))
  | [] => .ok []
  | (t, c) :: rest =>
      if cutoff ≤ c ∧ k ≠ "" ∧ t ≠ "" then
        if total = 0 then .error .zeroDivision
        else
          match edgeListForAux R cutoff k total rest with
          | .error err => .error err
          | .ok es => .ok ((k, t, [(R, c / total)]) :: es)
      else edgeListForAux R cutoff k total rest

/-- The per-source edge list built at `multigraph.py:108-109`. -/
def edgeListFor (R : String) (cutoff : Rat) (k : String) (v : List (String × Rat)) :
    Except PyErr (List (String × String × List (String × Rat))) :=
  edgeListForAux R cutoff k (sumCounts v) v

/-- The edge-adding loop of `add_entities` (`multigraph.py:107-109`): for
each (source, inner mapping) pair in order, build the comprehension's edge
list and add its edges via `add_edges_from`; a `ZeroDivisionError` aborts
the call. -/
def addEntitiesEdges (R : String) (cutoff : Rat) :
    MultiGraph → List (String × List (String × Rat)) → Except PyErr MultiGraph
  | h, [] => .ok h
  | h, (k, v) :: rest =>
      match edgeListFor R cutoff k v with
      | .error err => .error err
      | .ok es =>
          addEntitiesEdges R cutoff
            (es.foldl (fun h2 e => addEdgeAuto h2 e.1 e.2.1 e.2.2) h) rest

/-- The truthy source keys of `add_entities` (`multigraph.py:99`):
`[k for k in relationships.keys() if k]`. -/
def srcKeys (relationships : List (String × List (String × Rat))) : List String :=
  (relationships.map (fun p => p.1)).filter (fun k => k ≠ "")

/-- The truthy target keys of `add_entities` (`multigraph.py:100`):
`[k for d in relationships.values() for k, _ in d.items() if k]`. -/
def tgtKeys (relationships : List (String × List (String × Rat))) : List String :=
  ((relationships.map (fun p => p.2)).flatten.map (fun p => p.1)).filter
    (fun k => k ≠ "")

/-- The node-adding and role-tagging phase of `add_entities`
(`multigraph.py:101-106`): add all truthy source and target keys as nodes,
then set `from_entities = True` on every source and `to_entities = True` on
every target. -/
def addEntitiesTag (g : MultiGraph) (from_entities to_entities : String)
    (relationships : List (String × List (String × Rat))) : MultiGraph :=
  let g1 := (srcKeys relationships).foldl addNodePlain g
  let g2 := (tgtKeys relationships).foldl addNodePlain g1
  let g3 := (srcKeys relationships).foldl
    (fun h n => setNodeAttr h n from_entities true) g2
  (tgtKeys relationships).foldl (fun h n => setNodeAttr h n to_entities true) g3

/-- `MultiGraph.add_entities(from_entities, to_entities, relationship_type,
relationships, cutoff)` (`multigraph.py:88-109`): collect truthy source and
target keys, add them as nodes, tag sources with `from_entities = True` and
targets with `to_entities = True`, then add one weighted edge per
(source, target) pair whose raw count passes the cutoff, with weight
count / (sum of the source's raw counts). -/
def add_entities (g : MultiGraph) (from_entities to_entities relationship_type : String)
    (relationships : List (String × List (String × Rat))) (cutoff : Rat) :
    Except PyErr MultiGraph :=
  addEntitiesEdges relationship_type cutoff
    (addEntitiesTag g from_entities to_entities relationships) relationships

/-- `list(self.edges(data=R, nbunch=u))` projected to (target, attribute
value): for every outgoing parallel edge of `u`, the target together with
`attrs.get(R, None)`. -/
def edgesData (g : MultiGraph) (u R : String) : List (String × Option Rat) :=
  (edgesFrom g u).map (fun e => (e.tgt, alookup e.attrs R))

/-- Python truthiness of an edge-data value: `None` and `0.0` are falsy. -/
def truthyOpt : Option Rat → Bool
  | none => false
  | some x => x ≠ 0

/-- The overwrite guard of `infer_layer` (`multigraph.py:155-159`):
`existing_assignments = [field[1:] for field in edgelist_existing if
field[2]]` is non-empty, i.e. the entity has some outgoing edge whose `R2`
attribute is present and truthy.  The target's role tags are not consulted. -/
def skipCheck (g : MultiGraph) (entity R2 : String) : Bool :=
  ((edgesData g entity R2).filter (fun p => truthyOpt p.2)) ≠ []

/-- The role-filtered neighbor comprehensions of `infer_layer`
(`multigraph.py:161-162` with role `entity_chain[1]` and `filters[0]`;
`multigraph.py:170-171` with `entity_chain[2]` and `filters[1]`):
keep (target, weight) for every edge whose data is truthy, whose target
carries a truthy `role` attribute, whose weight passes the filter, and whose
target id is truthy.  Looking up the `role` attribute on a node that lacks
it raises `KeyError`, exactly as `self.nodes[n][role]` does. -/
def collectQualified (g : MultiGraph) (role : String) (f : Rat) :
    List (String × Option Rat) → Except PyErr (List (String × Rat))
  | [] => .ok []
  | (v, d) :: rest =>
      match d with
      | none => collectQualified g role f rest
      | some w =>
          if w ≠ 0 then
            match nodeAttr g v role with
            | none => .error .keyError
            | some b =>
                if b then
                  if f ≤ w then
                    if v ≠ "" then
                      match collectQualified g role f rest with
                      | .error err => .error err
                      | .ok tl => .ok ((v, w) :: tl)
                    else collectQualified g role f rest
                  else collectQualified g role f rest
                else collectQualified g role f rest
          else collectQualified g role f rest

/-- The renormalized-contribution fold of `infer_layer`
(`multigraph.py:172-179`) over one B-neighbor's qualifying target list:
`aggregate_dict[name] += prev_weight * (w / total)`. -/
def aggFold (prevWeight total : Rat) (acc : List (String × Rat)) :
    List (String × Rat) → List (String × Rat)
  | [] => acc
  | (name, w) :: rest =>
      aggFold prevWeight total (aadd acc name (prevWeight * (w / total))) rest

/-- The inner loop body of `infer_layer` (`multigraph.py:164-179`) for one
qualified B-neighbor `(b, prev_weight)`: collect the neighbor's qualifying
R2 targets, then fold their renormalized contributions into the aggregate
dict.  A non-empty qualifying list with zero total raises
`ZeroDivisionError` at the first division; an empty one contributes
nothing. -/
def aggregateNeighbor (g : MultiGraph) (roleC R2 : String) (f2 : Rat)
    (acc : List (String × Rat)) (bn : String × Rat) :
    Except PyErr (List (String × Rat)) :=
  match collectQualified g roleC f2 (edgesData g bn.1 R2) with
  | .error err => .error err
  | .ok fos =>
      let total := (fos.map (fun p => p.2)).sum
      if fos ≠ [] ∧ total = 0 then .error .zeroDivision
      else .ok (aggFold bn.2 total acc fos)

/-- The loop over qualified B-neighbors (`multigraph.py:164-179`). -/
def aggLoop (g : MultiGraph) (roleC R2 : String) (f2 : Rat) :
    List (String × Rat) → List (String × Rat) → Except PyErr (List (String × Rat))
  | acc, [] => .ok acc
  | acc, bn :: rest =>
      match aggregateNeighbor g roleC R2 f2 acc bn with
      | .error err => .error err
      | .ok acc' => aggLoop g roleC R2 f2 acc' rest

/-- The `aggregate_dict` computed for one starting entity
(`multigraph.py:161-179`), in discovery (dict-insertion) order. -/
def entityAggregate (g : MultiGraph) (roleB roleC R1 R2 : String) (f1 f2 : Rat)
    (entity : String) : Except PyErr (List (String × Rat)) :=
  match collectQualified g roleB f1 (edgesData g entity R1) with
  | .error err => .error err
  | .ok neighbors => aggLoop g roleC R2 f2 [] neighbors

/-- Stable insertion step for descending sort by score: the element is
placed before the first strictly smaller score, hence after every
earlier-discovered element with an equal score. -/
def insertDesc (x : String × Rat) : List (String × Rat) → List (String × Rat)
  | [] => [x]
  | y :: rest => if y.2 < x.2 then x :: y :: rest else y :: insertDesc x rest

/-- Python `sorted(items, key=value, reverse=True)` at `multigraph.py:189`:
stable descending sort by the score component. -/
def sortDescByScore (l : List (String × Rat)) : List (String × Rat) :=
  l.foldl (fun acc x => insertDesc x acc) []

/-- One entity of the `infer_layer` main loop (`multigraph.py:149-190`):
`none` when the entity is skipped by the overwrite guard, otherwise the
top-`max_links` candidates of the sorted aggregate
(`candidates[:max_links]`). -/
def planEntity (g : MultiGraph) (roleB roleC R1 R2 : String) (overwrite : Bool)
    (maxLinks : Nat) (f1 f2 : Rat) (entity : String) :
    Except PyErr (Option (String × List (String × Rat))) :=
  if !overwrite ∧ skipCheck g entity R2 then .ok none
  else
    match entityAggregate g roleB roleC R1 R2 f1 f2 entity with
    | .error err => .error err
    | .ok agg => .ok (some (entity, (sortDescByScore agg).take maxLinks))

/-- `starting_entities` (`multigraph.py:146`): nodes whose `roleA` attribute
is present and truthy and whose id is truthy, in insertion order. -/
def startingEntities (g : MultiGraph) (roleA : String) : List String :=
  g.nodes.filterMap (fun p =>
    if (alookup p.2 roleA = some true) ∧ p.1 ≠ "" then some p.1 else none)

/-- The loop of `infer_layer` building the `new_edges` dict
(`multigraph.py:148-190`): one entry per non-skipped starting entity, in
processing order. -/
def inferPlanLoop (g : MultiGraph) (roleB roleC R1 R2 : String) (overwrite : Bool)
    (maxLinks : Nat) (f1 f2 : Rat) :
    List (String × List (String × Rat)) → List String →
      Except PyErr (List (String × List (String × Rat)))
  | acc, [] => .ok acc
  | acc, e :: rest =>
      match planEntity g roleB roleC R1 R2 overwrite maxLinks f1 f2 e with
      | .error err => .error err
      | .ok none => inferPlanLoop g roleB roleC R1 R2 overwrite maxLinks f1 f2 acc rest
      | .ok (some entry) =>
          inferPlanLoop g roleB roleC R1 R2 overwrite maxLinks f1 f2 (acc ++ [entry]) rest

/-- The `new_edges` dict of `infer_layer` (`multigraph.py:148-190`). -/
def inferPlan (g : MultiGraph) (roleA roleB roleC R1 R2 : String)
    (overwrite : Bool) (maxLinks : Nat) (f1 f2 : Rat) :
    Except PyErr (List (String × List (String × Rat))) :=
  inferPlanLoop g roleB roleC R1 R2 overwrite maxLinks f1 f2 [] (startingEntities g roleA)

/-- Helper for `setEdgeAttr0`: update the attribute dict of the first edge
matching (src, tgt, key); `none` when no such edge exists. -/
def setEdgeAttrList (u v : String) (k : Nat) (name : String) (val : Rat) :
    List MGEdge → Option (List MGEdge)
  | [] => none
  | e :: rest =>
      if e.src = u ∧ e.tgt = v ∧ e.key = k then
        some ({ e with attrs := aset e.attrs name val } :: rest)
      else (setEdgeAttrList u v k name val rest).map (fun l => e :: l)

/-- `self.edges[u, v, k][name] = val`: raises `KeyError` when the keyed edge
does not exist. -/
def setEdgeAttr0 (g : MultiGraph) (u v : String) (k : Nat) (name : String)
    (val : Rat) : Except PyErr MultiGraph :=
  match setEdgeAttrList u v k name val g.edges with
  | none => .error .keyError
  | some es => .ok { g with edges := es }

/-- The edge-application step of `infer_layer` (`multigraph.py:196-197`):
`self.add_edge(entity, target)` (a fresh attribute-less parallel edge under
an auto key) followed by `self.edges[entity, target, 0][new_rel] = score`
(writing the score onto the key-0 edge). -/
def applyOneEdge (g : MultiGraph) (entity target newRel : String) (score : Rat) :
    Except PyErr MultiGraph :=
  setEdgeAttr0 (addEdgeAuto g entity target []) entity target 0 newRel score

/-- The inner edge-writing loop of `infer_layer` (`multigraph.py:195-197`)
for one entity's planned edge list. -/
def applyEntityEdges (newRel : String) (entity : String) :
    MultiGraph → List (String × Rat) → Except PyErr MultiGraph
  | h, [] => .ok h
  | h, ts :: rest =>
      match applyOneEdge h entity ts.1 newRel ts.2 with
      | .error err => .error err
      | .ok h' => applyEntityEdges newRel entity h' rest

/-- The outer edge-writing loop of `infer_layer` (`multigraph.py:194-197`)
over the `new_edges` dict. -/
def applyPlan (newRel : String) :
    MultiGraph → List (String × List (String × Rat)) → Except PyErr MultiGraph
  | h, [] => .ok h
  | h, entry :: rest =>
      match applyEntityEdges newRel entry.1 h entry.2 with
      | .error err => .error err
      | .ok h' => applyPlan newRel h' rest

/-- `MultiGraph.infer_layer(entity_chain=[A,B,C], relationship_chain=[R1,R2],
overwrite, max_links, filters=[f1,f2], new_relationship)`
(`multigraph.py:126-197`).  The entity and relationship chains and the two
filters are passed as separate arguments (the source asserts their lengths);
`max_links` is a natural number as at every call site.  The literal
`"default"` for `new_relationship` is replaced by R2's name before edges
are written. -/
def infer_layer (g : MultiGraph) (roleA roleB roleC R1 R2 : String)
    (overwrite : Bool) (maxLinks : Nat) (f1 f2 : Rat) (newRelationship : String) :
    Except PyErr MultiGraph :=
  match inferPlan g roleA roleB roleC R1 R2 overwrite maxLinks f1 f2 with
  | .error err => .error err
  | .ok plan =>
      let newRel := if newRelationship = "default" then R2 else newRelationship
      applyPlan newRel g plan

/-- Python `str.split(' ')` on a character list: split at every single
space, keeping empty words between consecutive spaces and at the ends. -/
def splitOnSpace : List Char → List (List Char)
  | [] => [[]]
  | c :: rest =>
      match splitOnSpace rest with
      | [] => [[]]
      | w :: ws => if c = ' ' then [] :: w :: ws else (c :: w) :: ws

/-- Two-character substring test: `prev + letter in cleaned_string`
(`venue_parser.py:121`). -/
def hasPair (p l : Char) : List Char → Bool
  | [] => false
  | [_] => false
  | a :: b :: rest => (a = p && b = l) || hasPair p l (b :: rest)

/-- The first-letters pool of `get_abbreviations` (`venue_parser.py:110-113`):
`[s[0] for s in cleaned_string.split(' ')]`, falling back to
`[cleaned_string[0]]` when some split word is empty (`IndexError`), which
itself raises `IndexError` when the whole string is empty. -/
def firstLetters (cleaned : List Char) : Except PyErr (List Char) :=
  let words := splitOnSpace cleaned
  if words.all (fun w => w ≠ []) then
    .ok (words.filterMap (fun w => w.head?))
  else
    match cleaned with
    | [] => .error .indexError
    | c :: _ => .ok [c]

/-- The letter-by-letter initials scan of `get_abbreviations`
(`venue_parser.py:114-130`): consume a matching first letter from the pool;
otherwise tolerate an in-word two-letter match (decrementing the mismatch
counter); otherwise reject when the counter equals one, else increment it.
Returns `true` when the whole candidate survives the scan. -/
def scanAux (cleaned : List Char) : List Char → List Char → Char → Int → Bool
  | [], _, _, _ => true
  | l :: rest, pool, prev, m =>
      if l ∈ pool then scanAux cleaned rest (pool.erase l) l m
      else if hasPair prev l cleaned then scanAux cleaned rest pool l (m - 1)
      else if m = 1 then false
      else scanAux cleaned rest pool l (m + 1)

/-- The abbreviation-validation scan of `get_abbreviations`
(`venue_parser.py:110-130`), given the already-normalized candidate and the
cleaned phrase (both as character lists): `some` of the candidate when the
scan accepts, `none` when it rejects. -/
def abbrevInitialsScan (cleaned abb : List Char) : Except PyErr (Option (List Char)) :=
  match firstLetters cleaned with
  | .error err => .error err
  | .ok pool => if scanAux cleaned abb pool 'X' 0 then .ok (some abb) else .ok none

/-- Modelled from the spec: the number of mismatch events of the scan — the
candidate letters that neither consume a remaining first-letter entry nor,
prefixed with the previous candidate letter, occur as a two-letter substring
of the cleaned phrase.  The pool and previous-letter evolution is that of
`scanAux`; counting continues past any would-be rejection point. -/
def mismatchEventsAux (cleaned : List Char) : List Char → List Char → Char → Nat
  | [], _, _ => 0
  | l :: rest, pool, prev =>
      if l ∈ pool then mismatchEventsAux cleaned rest (pool.erase l) l
      else if hasPair prev l cleaned then mismatchEventsAux cleaned rest pool l
      else 1 + mismatchEventsAux cleaned rest pool l

/-- Modelled from the spec: total mismatch events over the whole scan. -/
def mismatchEvents (cleaned abb : List Char) : Except PyErr Nat :=
  match firstLetters cleaned with
  | .error err => .error err
  | .ok pool => .ok (mismatchEventsAux cleaned abb pool 'X')

/-- Python `\w` for the ASCII strings at hand: letters, digits, underscore. -/
def isWordChar (c : Char) : Bool :=
  c.isAlphanum || c = '_'

/-- Backtracking order of the first group `(XC|XL|L?X{0,3})` of the
Roman-numeral pattern at `venue_parser.py:203`. -/
def g1Alts : List (List Char) :=
  [['X', 'C'], ['X', 'L'], ['L', 'X', 'X', 'X'], ['L', 'X', 'X'], ['L', 'X'],
   ['L'], ['X', 'X', 'X'], ['X', 'X'], ['X'], []]

/-- Backtracking order of the second group `(IX|IV|V?I{0,3})`. -/
def g2Alts : List (List Char) :=
  [['I', 'X'], ['I', 'V'], ['V', 'I', 'I', 'I'], ['V', 'I', 'I'], ['V', 'I'],
   ['V'], ['I', 'I', 'I'], ['I', 'I'], ['I'], []]

/-- When `m` is an initial segment of `s`, return the remainder of `s`. -/
def takeEq : List Char → List Char → Option (List Char)
  | [], rest => some rest
  | _ :: _, [] => none
  | c :: ms, d :: rest => if c = d then takeEq ms rest else none

/-- Word-boundary test after a match: the match ends in a Roman letter
(a word character), so `\b` holds exactly when the remainder starts with a
non-word character or is empty. -/
def boundaryAfter : List Char → Bool
  | [] => true
  | c :: _ => !(isWordChar c)

/-- The first non-empty match of `(XC|XL|L?X{0,3})(IX|IV|V?I{0,3})\b` at the
head of `s`, enumerating group alternatives in regex backtracking order.
`none` means only the empty match succeeds there (a no-op for `re.sub`). -/
def romanMatchAt (s : List Char) : Option (List Char) :=
  ((g1Alts.map (fun a => g2Alts.map (fun b => a ++ b))).flatten).find?
    (fun m =>
      !m.isEmpty &&
        (match takeEq m s with
          | none => false
          | some rest => boundaryAfter rest))

/-- Scan of `re.sub(r'\b(XC|XL|L?X{0,3})(IX|IV|V?I{0,3})\b', '', venue)`
(`venue_parser.py:203`): at every word-boundary position, remove the first
non-empty pattern match; empty matches remove nothing.  `prevW` records
whether the previous character was a word character.  The recursion is
structural on a fuel that starts at `length + 1` and always dominates the
remaining length, so the fuel-exhausted base case is never reached. -/
def romanSubAux : Nat → List Char → Bool → List Char
  | 0, l, _ => l
  | _ + 1, [], _ => []
  | fuel + 1, c :: rest, prevW =>
      if prevW ≠ isWordChar c then
        match romanMatchAt (c :: rest) with
        | some m => romanSubAux fuel (List.drop m.length (c :: rest)) true
        | none => c :: romanSubAux fuel rest (isWordChar c)
      else c :: romanSubAux fuel rest (isWordChar c)

/-- The Roman-numeral stripping substitution applied by `preprocess_venue`. -/
def romanSub (s : String) : String :=
  ⟨romanSubAux (s.toList.length + 1) s.toList false⟩

/-- Control-flow outcome of `preprocess_venue` (`venue_parser.py:200-213`):
either the early `(None, False)` rejection, or delegation to
`self.preprocess` with the (possibly Roman-stripped) venue string. -/
inductive PVRoute where
  | rejected
  | delegated (venue : String)
deriving DecidableEq, Repr

/-- The string members of the blacklist set at `venue_parser.py:207-208`
(the set also contains `None`, which a string argument never equals). -/
def pvBlacklist : List String :=
  ["n/a", "na", "none", "", "null", "otherdata", "nodata", "unknown",
   "author", "crossref", "arxiv", "Crossref", "Arxiv"]

/-- `preprocess_venue(venue, get_abbrv)` for a string argument
(`venue_parser.py:200-213`), up to the delegation to `preprocess`: strip
Roman-numeral tokens unless the venue is the literal `'IV'`, then either
reject via the sentinel blacklist (returning `(None, False)`) or hand the
resulting string to `preprocess`. -/
def preprocess_venue_route (venue : String) : PVRoute :=
  let v := if venue = "IV" then venue else romanSub venue
  if v ∈ pvBlacklist then .rejected else .delegated v

/-- The abbreviation-cache interaction of `preprocess`
(`venue_parser.py:176-184`), parameterized by the cleaned phrase computed by
the preceding cleaning pipeline and by the result of
`get_abbreviations` (which never reads or writes the cache): a cache hit
returns the cached abbreviation; a miss with successful extraction inserts
the new binding and returns it; a failed extraction returns the cleaned
phrase unchanged.  Result: (new cache state, returned pair). -/
def preprocessCacheStep (cache : List (String × String)) (cleaned : String)
    (extracted : Option String) : List (String × String) × (String × Bool) :=
  match alookup cache cleaned with
  | some a => (cache, (a, true))
  | none =>
      match extracted with
      | some ab => (cache ++ [(cleaned, ab)], (ab, true))
      | none => (cache, (cleaned, false))

/-- One node record of the persisted node-link JSON document: the node id
and its attribute object. -/
structure NLNode where
  id : String
  attrs : List (String × Bool)
deriving DecidableEq, Repr

/-- One link record of the persisted document: source, target, the key
discriminating parallel edges, and the attribute object. -/
structure NLLink where
  source : String
  target : String
  key : Nat
  attrs : List (String × Rat)
deriving DecidableEq, Repr

/-- Modelled from the spec: the persisted graph document of §6 — a
node-link-style JSON structure with a node list and a link list — as
produced by `nx.node_link_data` and consumed by `nx.node_link_graph`
(`save`/`load`, `multigraph.py:71-124`; the networkx/json serialization
code itself is outside the repository). -/
structure NodeLinkDoc where
  nodes : List NLNode
  links : List NLLink
deriving DecidableEq, Repr

/-- `MultiGraph.save` (`multigraph.py:71-86`): serialize the graph as a
node-link document, one node record per node and one link record per keyed
parallel edge, in store order. -/
def save (g : MultiGraph) : NodeLinkDoc :=
  ⟨g.nodes.map (fun p => ⟨p.1, p.2⟩),
   g.edges.map (fun e => ⟨e.src, e.tgt, e.key, e.attrs⟩)⟩

/-- Python `dict.update`: fold the new bindings over the old dict. -/
def attrsUpdate {α : Type} (old upd : List (String × α)) : List (String × α) :=
  upd.foldl (fun acc p => aset acc p.1 p.2) old

/-- Modelled from the spec: `nx.node_link_graph` node insertion — networkx
`add_node(id, **attrs)` merges the attributes into an existing node's dict,
or appends a fresh node. -/
def loadAddNode (g : MultiGraph) (n : NLNode) : MultiGraph :=
  match alookup g.nodes n.id with
  | some _ =>
      { g with
        nodes := g.nodes.map (fun p =>
          if p.1 = n.id then (p.1, attrsUpdate p.2 n.attrs) else p) }
  | none => { g with nodes := g.nodes ++ [(n.id, n.attrs)] }

/-- Helper for `loadAddEdge`: merge attributes into the first edge matching
(source, target, key); `none` when no such edge exists. -/
def mergeEdgeAttrsList (u v : String) (k : Nat) (na : List (String × Rat)) :
    List MGEdge → Option (List MGEdge)
  | [] => none
  | e :: rest =>
      if e.src = u ∧ e.tgt = v ∧ e.key = k then
        some ({ e with attrs := attrsUpdate e.attrs na } :: rest)
      else (mergeEdgeAttrsList u v k na rest).map (fun l => e :: l)

/-- Modelled from the spec: `nx.node_link_graph` link insertion — networkx
`add_edge(u, v, key=k, **attrs)` ensures both endpoints exist, then merges
the attributes into the existing (u, v, k) edge or appends a fresh one. -/
def loadAddEdge (g : MultiGraph) (l : NLLink) : MultiGraph :=
  let g1 := addNodePlain (addNodePlain g l.source) l.target
  match mergeEdgeAttrsList l.source l.target l.key l.attrs g1.edges with
  | some es => { g1 with edges := es }
  | none => { g1 with edges := g1.edges ++ [⟨l.source, l.target, l.key, l.attrs⟩] }

/-- `MultiGraph.load` (`multigraph.py:111-124`): rebuild the in-memory
state from a node-link document, inserting every listed node and then every
listed keyed link. -/
def load (d : NodeLinkDoc) : MultiGraph :=
  d.links.foldl loadAddEdge (d.nodes.foldl loadAddNode MultiGraph.empty)

/-- Well-formedness of a graph state as networkx maintains it: node ids are
unique, keyed parallel edges are unique per (source, target, key), and every
edge endpoint is a node of the graph. -/
def WFGraph (g : MultiGraph) : Prop :=
  (g.nodes.map Prod.fst).Nodup ∧
  (g.edges.map (fun e => (e.src, e.tgt, e.key))).Nodup ∧
  ∀ e ∈ g.edges, (alookup g.nodes e.src).isSome ∧ (alookup g.nodes e.tgt).isSome

instance (g : MultiGraph) : Decidable (WFGraph g) := by
  unfold WFGraph; infer_instance

/-- Structural identity of two graph states: the same node set with the
same attribute maps and the same keyed parallel edges with the same
attribute maps, independent of storage order. -/
def structEq (g1 g2 : MultiGraph) : Prop :=
  g1.nodes.Perm g2.nodes ∧ g1.edges.Perm g2.edges

instance (g1 g2 : MultiGraph) : Decidable (structEq g1 g2) := by
  unfold structEq; exact instDecidableAnd

/-- Concrete graph for C9: node `a` is tagged with role `A` and has an
outgoing edge with a truthy `R1` weight to node `x`, which entirely lacks
the role-`B` attribute key. -/
def gC9 : MultiGraph :=
  ⟨[("a", [("A", true)]), ("x", [])], [⟨"a", "x", 0, [("R1", 1)]⟩]⟩

/-- Concrete graph for C3: node `a` is tagged `A` and has a truthy `R2`
edge to `x`, which is not tagged with role `C`; `a` also has a fully
qualifying two-hop path `a → b → c` (`b` tagged `B`, `c` tagged `C`). -/
def gC3 : MultiGraph :=
  ⟨[("a", [("A", true)]), ("x", []), ("b", [("B", true)]), ("c", [("C", true)])],
   [⟨"a", "x", 0, [("R2", 1)]⟩, ⟨"a", "b", 0, [("R1", 1)]⟩, ⟨"b", "c", 0, [("R2", 1)]⟩]⟩

/-- Concrete graph for the C10 witness: a pre-existing edge `a → c` under
key 0 carrying an `old` attribute. -/
def gC10 : MultiGraph :=
  ⟨[("a", []), ("c", [])], [⟨"a", "c", 0, [("old", 5)]⟩]⟩

/-- Number of outgoing edges of a node (used to count the edges `infer_layer`
adds per source). -/
def countFrom (g : MultiGraph) (u : String) : Nat :=
  (edgesFrom g u).length

/-- Concrete graph for the C6 witness: one A-node with one qualifying
B-neighbor that has two C-targets with unequal R2 weights. -/
def gW : MultiGraph :=
  ⟨[("a", [("A", true)]), ("b", [("B", true)]), ("c", [("C", true)]),
    ("d", [("C", true)])],
   [⟨"a", "b", 0, [("R1", 1)]⟩, ⟨"b", "c", 0, [("R2", 3)]⟩,
    ⟨"b", "d", 0, [("R2", 1)]⟩]⟩

/-- Concrete graph for the C7 witness, with parallel edges. -/
def gC7 : MultiGraph :=
  ⟨[("a", [("A", true)]), ("b", [("B", true)])],
   [⟨"a", "b", 0, [("R", 1)]⟩, ⟨"a", "b", 1, [("R", 2)]⟩]⟩

/-- A document for `gC7` with nodes and links serialized in reversed
order. -/
def dC7 : NodeLinkDoc :=
  ⟨[⟨"b", [("B", true)]⟩, ⟨"a", [("A", true)]⟩],
   [⟨"a", "b", 1, [("R", 2)]⟩, ⟨"a", "b", 0, [("R", 1)]⟩]⟩

theorem alookup_append_left {α : Type} {l l' : List (String × α)} {k : String}
    {v : α} (h : alookup l k = some v) : alookup (l ++ l') k = some v := by
  induction l with
  | nil => simp [alookup] at h
  | cons p rest ih =>
      rw [List.cons_append]
      rw [alookup] at h ⊢
      split at h
      · simp_all
      · simp_all [ih h]

theorem aset_alookup_self {α : Type} (l : List (String × α)) (k : String) (v : α) :
    alookup (aset l k v) k = some v := by
  induction l with
  | nil => simp [aset, alookup]
  | cons p rest ih =>
      rw [aset]
      split
      · rw [alookup]; simp_all
      · rw [alookup]; simp_all

theorem aset_alookup_ne {α : Type} (l : List (String × α)) (k k' : String) (v : α)
    (h : k' ≠ k) : alookup (aset l k v) k' = alookup l k' := by
  induction l with
  | nil =>
      simp only [aset, alookup]
      rw [if_neg (fun hh => h hh.symm)]
  | cons p rest ih =>
      obtain ⟨pk, pv⟩ := p
      simp only [aset]
      by_cases hp : pk = k
      · rw [if_pos hp]
        simp only [alookup]
        have hne : ¬pk = k' := fun hh => h (hh ▸ hp)
        rw [if_neg hne, if_neg hne]
      · rw [if_neg hp]
        simp only [alookup]
        split
        · rfl
        · exact ih

/-- C8: the abbreviation cache is append-only at runtime.  The cache-touching
step of `preprocess` (`venue_parser.py:176-184`) — also reached through
`preprocess_venue`, while `postprocess` never assigns to the cache —
preserves every existing binding, and either leaves the cache unchanged or
appends one fresh binding for the cleaned phrase on a successful cache-miss
extraction. -/
theorem C8_cache_append_only (cache : List (String × String)) (cleaned : String)
    (extracted : Option String) :
    (∀ k v, alookup cache k = some v →
      alookup (preprocessCacheStep cache cleaned extracted).1 k = some v) ∧
    ((preprocessCacheStep cache cleaned extracted).1 = cache ∨
      (alookup cache cleaned = none ∧ ∃ ab, extracted = some ab ∧
        (preprocessCacheStep cache cleaned extracted).1 = cache ++ [(cleaned, ab)])) := by
  unfold preprocessCacheStep
  cases hc : alookup cache cleaned with
  | some a => exact ⟨fun k v h => h, Or.inl rfl⟩
  | none =>
      cases extracted with
      | some ab =>
          exact ⟨fun k v h => alookup_append_left h, Or.inr ⟨rfl, ab, rfl, rfl⟩⟩
      | none => exact ⟨fun k v h => h, Or.inl rfl⟩

/-- Witness for C8 at a concrete cache state: the pre-existing binding for
"icml" survives a cache-miss insertion for "meeting". -/
theorem C8_cache_append_only_witness :
    alookup (preprocessCacheStep [("icml", "icml")] "meeting" (some "mtg")).1
      "icml" = some "icml" :=
  (C8_cache_append_only [("icml", "icml")] "meeting" (some "mtg")).1
    "icml" "icml" (by decide)


/-- C9: `infer_layer` raises `KeyError` when a qualifying R1 edge points to
a node that lacks the role-B attribute key, instead of silently excluding
that neighbor from the collection step (`multigraph.py:161-162`). -/
theorem C9_keyerror_missing_role :
    infer_layer gC9 "A" "B" "C" "R1" "R2" false 2 0 0 "default" =
      .error .keyError := by decide

/-- C1 counterexample: with the default `cutoff = 0`, a source whose raw
counts sum to zero makes `add_entities` raise `ZeroDivisionError`
(`multigraph.py:109` evaluates `0 / 0` for the zero-count target that
passes the `v[t] >= cutoff` test), so the call does fail. -/
theorem C1_counterexample :
    add_entities MultiGraph.empty "F" "T" "R" [("a", [("b", 0)])] 0 =
      .error .zeroDivision := by with_unfolding_all decide

/-- C2 counterexample: with `cutoff = 1` and counts `{b: 1, c: 1}`, the raw
count 1 passes the cutoff test at `multigraph.py:109`, so edges with
normalized weight 1/2 < cutoff are created — the cutoff is compared against
the raw count, not the normalized weight, and a below-cutoff weight is not
absent. -/
theorem C2_counterexample :
    add_entities MultiGraph.empty "F" "T" "R" [("a", [("b", 1), ("c", 1)])] 1 =
      .ok ⟨[("a", [("F", true)]), ("b", [("T", true)]), ("c", [("T", true)])],
        [⟨"a", "b", 0, [("R", 1/2)]⟩, ⟨"a", "c", 0, [("R", 1/2)]⟩]⟩ ∧
    ((1 : Rat) / 2 < 1) := by
  constructor
  · with_unfolding_all decide
  · norm_num


/-- C3 counterexample: the overwrite guard fires for node `a` although its
only truthy-`R2` edge points to a target not tagged role `C`, and the whole
`infer_layer` call leaves the graph unchanged — no inferred edge is added
despite the qualifying path `a → b → c`.  An existing R2-weighted edge to a
non-C target does cause the node to be skipped. -/
theorem C3_counterexample :
    skipCheck gC3 "a" "R2" = true ∧
    (∀ p ∈ (edgesData gC3 "a" "R2").filter (fun p => truthyOpt p.2),
      nodeAttr gC3 p.1 "C" ≠ some true) ∧
    infer_layer gC3 "A" "B" "C" "R1" "R2" false 2 0 0 "default" = .ok gC3 := by
  with_unfolding_all decide

/-- C5 counterexample: `preprocess_venue("N/A")` does not return
`(None, False)` — "N/A" is a case variant of the sentinel "n/a", but the
blacklist test at `venue_parser.py:209` is an exact (case-sensitive) set
membership, so the call delegates to `preprocess` instead. -/
theorem C5_counterexample :
    preprocess_venue_route "N/A" = .delegated "N/A" ∧
    "N/A".toList.map Char.toLower = "n/a".toList ∧
    "n/a" ∈ pvBlacklist := by decide

/-- C5 amended: `preprocess_venue` first strips Roman-numeral tokens
(skipped only when the venue is the literal `'IV'`), and only then tests the
stripped string for exact (case-sensitive) membership in the blacklist set:
it returns `(None, False)` exactly when the stripped string is a member, and
otherwise delegates the stripped string to `preprocess`. In particular the
case variant "N/A" (unchanged by the strip, not a member) is delegated,
while a non-member such as "X" strips to "" and is rejected. -/
theorem C5_amended (v : String) :
    (preprocess_venue_route v = .rejected ↔
      (if v = "IV" then v else romanSub v) ∈ pvBlacklist) ∧
    ((if v = "IV" then v else romanSub v) ∉ pvBlacklist →
      preprocess_venue_route v =
        .delegated (if v = "IV" then v else romanSub v)) := by
  unfold preprocess_venue_route
  by_cases h : (if v = "IV" then v else romanSub v) ∈ pvBlacklist
  · simp [h]
  · simp [h]

/-- Witness for C5: the sentinel "n/a" is rejected; "X" is not a blacklist
member yet strips to "" and is rejected; "N/A" is delegated unchanged. -/
theorem C5_amended_witness :
    preprocess_venue_route "n/a" = .rejected ∧
    ("X" ∉ pvBlacklist ∧ preprocess_venue_route "X" = .rejected) ∧
    preprocess_venue_route "N/A" = .delegated "N/A" := by
  refine ⟨(C5_amended "n/a").1.mpr (by decide),
    ⟨by decide, (C5_amended "X").1.mpr (by decide)⟩, ?_⟩
  have h := (C5_amended "N/A").2 (by decide)
  have hv : (if "N/A" = "IV" then "N/A" else romanSub "N/A") = "N/A" := by
    decide
  rw [hv] at h
  exact h

/-- C4 counterexample: on the realizable inputs `cleaned = "qz workshop"`,
candidate `"aqzb"` (from e.g. `"Qz Workshop (AQZB)"`), the scan encounters
two mismatch events — 'a' and 'b' — separated by the tolerated two-letter
match "qz" (which decrements the counter at `venue_parser.py:127`), and
accepts the candidate instead of rejecting on the second mismatch. -/
theorem C4_counterexample :
    abbrevInitialsScan "qz workshop".toList "aqzb".toList =
      .ok (some "aqzb".toList) ∧
    mismatchEvents "qz workshop".toList "aqzb".toList = .ok 2 := by decide

/-- Invariant behind C4: the scan accepts whenever the counter value plus
all remaining mismatch events stays at most one, because a mismatch only
rejects when the counter is exactly one at that moment. -/
theorem scanAux_of_events_le (cleaned : List Char) :
    ∀ (letters pool : List Char) (prev : Char) (m : Int),
      m + (mismatchEventsAux cleaned letters pool prev : Int) ≤ 1 →
      scanAux cleaned letters pool prev m = true := by
  intro letters
  induction letters with
  | nil => intro pool prev m _; rfl
  | cons l rest ih =>
      intro pool prev m hm
      rw [scanAux, mismatchEventsAux] at *
      by_cases hin : l ∈ pool
      · rw [if_pos hin] at hm ⊢
        exact ih (pool.erase l) l m hm
      · rw [if_neg hin] at hm ⊢
        by_cases hp : hasPair prev l cleaned = true
        · rw [if_pos hp] at hm ⊢
          exact ih pool l (m - 1) (by omega)
        · rw [if_neg hp] at hm ⊢
          push_cast at hm
          have hm1 : m ≠ 1 := by omega
          rw [if_neg hm1]
          exact ih pool l (m + 1) (by omega)

/-- C4 amended: a candidate whose scan produces at most one mismatch event
is always accepted (so rejection requires at least two mismatch events),
but the counter is decremented by each tolerated in-word two-letter match,
so rejection happens only at a mismatch where the tolerated mismatches so
far exceed the two-letter matches so far by exactly one — more than one
mismatch can be tolerated when two-letter matches intervene. -/
theorem C4_amended (cleaned abb : List Char) (n : Nat)
    (hn : mismatchEvents cleaned abb = .ok n) (h1 : n ≤ 1) :
    abbrevInitialsScan cleaned abb = .ok (some abb) := by
  unfold mismatchEvents at hn
  unfold abbrevInitialsScan
  cases hfl : firstLetters cleaned with
  | error e => rw [hfl] at hn; cases hn
  | ok pool =>
      rw [hfl] at hn
      have hev : mismatchEventsAux cleaned abb pool 'X' = n := by
        injection hn
      have hs : scanAux cleaned abb pool 'X' 0 = true := by
        apply scanAux_of_events_le
        rw [hev]
        omega
      simp [hs]

/-- Witness for C4 at a concrete input with exactly one mismatch event. -/
theorem C4_amended_witness :
    abbrevInitialsScan "machine learning".toList "mlq".toList =
      .ok (some "mlq".toList) :=
  C4_amended "machine learning".toList "mlq".toList 1 (by decide) (by decide)

theorem alookup_append_right {α : Type} {l l' : List (String × α)} {k : String}
    (h : alookup l k = none) : alookup (l ++ l') k = alookup l' k := by
  induction l with
  | nil => rfl
  | cons p rest ih =>
      rw [alookup] at h
      split at h
      · cases h
      · rw [List.cons_append, alookup]
        simp_all [ih h]

theorem addNodePlain_edges (g : MultiGraph) (n : String) :
    (addNodePlain g n).edges = g.edges := by
  unfold addNodePlain; split <;> rfl

theorem foldl_addNodePlain_edges (l : List String) (g : MultiGraph) :
    (l.foldl addNodePlain g).edges = g.edges := by
  induction l generalizing g with
  | nil => rfl
  | cons n rest ih => rw [List.foldl_cons, ih, addNodePlain_edges]

theorem setNodeAttr_edges (g : MultiGraph) (n a : String) (b : Bool) :
    (setNodeAttr g n a b).edges = g.edges := rfl

theorem foldl_setNodeAttr_edges (l : List String) (g : MultiGraph) (a : String) :
    (l.foldl (fun h n => setNodeAttr h n a true) g).edges = g.edges := by
  induction l generalizing g with
  | nil => rfl
  | cons n rest ih => rw [List.foldl_cons, ih]; rfl

theorem addNodePlain_isSome_keep (g : MultiGraph) (m n : String)
    (h : (alookup g.nodes n).isSome) :
    (alookup (addNodePlain g m).nodes n).isSome := by
  unfold addNodePlain
  split
  · exact h
  · cases hn : alookup g.nodes n with
    | none => rw [hn] at h; cases h
    | some attrs => simp [alookup_append_left hn]

theorem addNodePlain_isSome_self (g : MultiGraph) (n : String) :
    (alookup (addNodePlain g n).nodes n).isSome := by
  unfold addNodePlain
  split
  · rename_i attrs heq; simp [heq]
  · rename_i heq
    rw [show (({ g with nodes := g.nodes ++ [(n, [])] } : MultiGraph)).nodes =
      g.nodes ++ [(n, [])] from rfl]
    rw [alookup_append_right heq]
    simp [alookup]

theorem foldl_addNodePlain_isSome_keep (l : List String) (g : MultiGraph) (n : String)
    (h : (alookup g.nodes n).isSome) :
    (alookup (l.foldl addNodePlain g).nodes n).isSome := by
  induction l generalizing g with
  | nil => exact h
  | cons m rest ih => rw [List.foldl_cons]; exact ih _ (addNodePlain_isSome_keep g m n h)

theorem foldl_addNodePlain_isSome_mem (l : List String) (g : MultiGraph) (n : String)
    (h : n ∈ l) : (alookup (l.foldl addNodePlain g).nodes n).isSome := by
  induction l generalizing g with
  | nil => cases h
  | cons m rest ih =>
      rw [List.foldl_cons]
      rcases List.mem_cons.mp h with rfl | hm
      · exact foldl_addNodePlain_isSome_keep rest _ n (addNodePlain_isSome_self g n)
      · exact ih _ hm

theorem setNodeAttrList_alookup_self (l : List (String × List (String × Bool)))
    (n a : String) (b : Bool) :
    alookup (setNodeAttrList n a b l) n =
      (alookup l n).map (fun attrs => aset attrs a b) := by
  induction l with
  | nil => rfl
  | cons p rest ih =>
      obtain ⟨pn, pattrs⟩ := p
      rw [setNodeAttrList]
      by_cases hp : pn = n
      · rw [if_pos hp, alookup, if_pos hp, alookup, if_pos hp]
        rfl
      · rw [if_neg hp, alookup, if_neg hp, alookup, if_neg hp, ih]

theorem setNodeAttrList_alookup_ne (l : List (String × List (String × Bool)))
    (n a : String) (b : Bool) (m : String) (h : m ≠ n) :
    alookup (setNodeAttrList n a b l) m = alookup l m := by
  induction l with
  | nil => rfl
  | cons p rest ih =>
      obtain ⟨pn, pattrs⟩ := p
      rw [setNodeAttrList]
      by_cases hp : pn = n
      · rw [if_pos hp, alookup, alookup]
        have hne : ¬pn = m := fun hh => h (hh ▸ hp)
        rw [if_neg hne, if_neg hne]
      · rw [if_neg hp, alookup, alookup, ih]

theorem setNodeAttr_isSome_keep (g : MultiGraph) (m a : String) (b : Bool) (n : String)
    (h : (alookup g.nodes n).isSome) :
    (alookup (setNodeAttr g m a b).nodes n).isSome := by
  unfold setNodeAttr
  by_cases hm : n = m
  · subst hm
    rw [show ({ g with nodes := setNodeAttrList n a b g.nodes } : MultiGraph).nodes =
      setNodeAttrList n a b g.nodes from rfl]
    rw [setNodeAttrList_alookup_self]
    cases hg : alookup g.nodes n with
    | none => rw [hg] at h; cases h
    | some attrs => simp
  · rw [show ({ g with nodes := setNodeAttrList m a b g.nodes } : MultiGraph).nodes =
      setNodeAttrList m a b g.nodes from rfl]
    rw [setNodeAttrList_alookup_ne _ _ _ _ _ hm]
    exact h

theorem setNodeAttr_nodeAttr_self (g : MultiGraph) (n a : String)
    (h : (alookup g.nodes n).isSome) :
    nodeAttr (setNodeAttr g n a true) n a = some true := by
  unfold nodeAttr setNodeAttr
  rw [show ({ g with nodes := setNodeAttrList n a true g.nodes } : MultiGraph).nodes =
    setNodeAttrList n a true g.nodes from rfl]
  rw [setNodeAttrList_alookup_self]
  cases hg : alookup g.nodes n with
  | none => rw [hg] at h; cases h
  | some attrs => simp [aset_alookup_self]

theorem setNodeAttr_nodeAttr_keep (g : MultiGraph) (m a' n a : String)
    (h : nodeAttr g n a = some true) :
    nodeAttr (setNodeAttr g m a' true) n a = some true := by
  unfold nodeAttr setNodeAttr at *
  rw [show ({ g with nodes := setNodeAttrList m a' true g.nodes } : MultiGraph).nodes =
    setNodeAttrList m a' true g.nodes from rfl]
  by_cases hm : n = m
  · subst hm
    rw [setNodeAttrList_alookup_self]
    cases hg : alookup g.nodes n with
    | none => rw [hg] at h; cases h
    | some attrs =>
        rw [hg] at h
        simp only [Option.map_some', Option.some_bind] at *
        by_cases ha : a = a'
        · subst ha; exact aset_alookup_self attrs a true
        · rw [aset_alookup_ne _ _ _ _ ha]; exact h
  · rw [setNodeAttrList_alookup_ne _ _ _ _ _ hm]
    exact h

theorem foldl_setNodeAttr_isSome_keep (l : List String) (g : MultiGraph) (a : String)
    (n : String) (h : (alookup g.nodes n).isSome) :
    (alookup (l.foldl (fun h2 m => setNodeAttr h2 m a true) g).nodes n).isSome := by
  induction l generalizing g with
  | nil => exact h
  | cons m rest ih =>
      rw [List.foldl_cons]
      exact ih _ (setNodeAttr_isSome_keep g m a true n h)

theorem foldl_setNodeAttr_nodeAttr_keep (l : List String) (g : MultiGraph)
    (a' n a : String) (h : nodeAttr g n a = some true) :
    nodeAttr (l.foldl (fun h2 m => setNodeAttr h2 m a' true) g) n a = some true := by
  induction l generalizing g with
  | nil => exact h
  | cons m rest ih =>
      rw [List.foldl_cons]
      exact ih _ (setNodeAttr_nodeAttr_keep g m a' n a h)

theorem foldl_setNodeAttr_nodeAttr_mem (l : List String) (g : MultiGraph)
    (n a : String) (hn : n ∈ l) (hp : (alookup g.nodes n).isSome) :
    nodeAttr (l.foldl (fun h2 m => setNodeAttr h2 m a true) g) n a = some true := by
  induction l generalizing g with
  | nil => cases hn
  | cons m rest ih =>
      rw [List.foldl_cons]
      rcases List.mem_cons.mp hn with rfl | hm
      · exact foldl_setNodeAttr_nodeAttr_keep rest _ a n a
          (setNodeAttr_nodeAttr_self g n a hp)
      · exact ih _ hm (setNodeAttr_isSome_keep g m a true n hp)

theorem addNodePlain_nodeAttr_keep (g : MultiGraph) (m n a : String)
    (h : nodeAttr g n a = some true) :
    nodeAttr (addNodePlain g m) n a = some true := by
  unfold addNodePlain nodeAttr at *
  split
  · exact h
  · cases hg : alookup g.nodes n with
    | none => rw [hg] at h; cases h
    | some attrs =>
        rw [hg] at h
        rw [show ({ g with nodes := g.nodes ++ [(m, [])] } : MultiGraph).nodes =
          g.nodes ++ [(m, [])] from rfl]
        rw [alookup_append_left hg]
        exact h

theorem addEdgeAuto_nodeAttr_keep (g : MultiGraph) (u v : String)
    (attrs : List (String × Rat)) (n a : String)
    (h : nodeAttr g n a = some true) :
    nodeAttr (addEdgeAuto g u v attrs) n a = some true := by
  unfold addEdgeAuto
  exact addNodePlain_nodeAttr_keep _ _ _ _ (addNodePlain_nodeAttr_keep _ _ _ _ h)

theorem foldl_addEdgeAuto_nodeAttr_keep
    (es : List (String × String × List (String × Rat))) (g : MultiGraph)
    (n a : String) (h : nodeAttr g n a = some true) :
    nodeAttr (es.foldl (fun h2 e => addEdgeAuto h2 e.1 e.2.1 e.2.2) g) n a =
      some true := by
  induction es generalizing g with
  | nil => exact h
  | cons e rest ih =>
      rw [List.foldl_cons]
      exact ih _ (addEdgeAuto_nodeAttr_keep g e.1 e.2.1 e.2.2 n a h)

theorem addEdgeAuto_edgesFrom_ne (g : MultiGraph) (u v : String)
    (attrs : List (String × Rat)) (s : String) (h : u ≠ s) :
    edgesFrom (addEdgeAuto g u v attrs) s = edgesFrom g s := by
  unfold addEdgeAuto edgesFrom
  rw [show ({ addNodePlain (addNodePlain g u) v with
    edges := (addNodePlain (addNodePlain g u) v).edges ++
      [⟨u, v, newEdgeKey (addNodePlain (addNodePlain g u) v) u v, attrs⟩] } :
        MultiGraph).edges =
    (addNodePlain (addNodePlain g u) v).edges ++
      [⟨u, v, newEdgeKey (addNodePlain (addNodePlain g u) v) u v, attrs⟩] from rfl]
  rw [addNodePlain_edges, addNodePlain_edges, List.filter_append]
  simp [h]

theorem foldl_addEdgeAuto_edgesFrom
    (es : List (String × String × List (String × Rat))) (g : MultiGraph)
    (s : String) (h : ∀ e ∈ es, e.1 ≠ s) :
    edgesFrom (es.foldl (fun h2 e => addEdgeAuto h2 e.1 e.2.1 e.2.2) g) s =
      edgesFrom g s := by
  induction es generalizing g with
  | nil => rfl
  | cons e rest ih =>
      rw [List.foldl_cons, ih _ (fun x hx => h x (List.mem_cons_of_mem e hx)),
        addEdgeAuto_edgesFrom_ne g e.1 e.2.1 e.2.2 s (h e (List.mem_cons_self e rest))]

theorem edgeListForAux_sources (R : String) (cutoff : Rat) (k : String) (total : Rat) :
    ∀ (v : List (String × Rat)) (es : List (String × String × List (String × Rat))),
      edgeListForAux R cutoff k total v = .ok es → ∀ e ∈ es, e.1 = k := by
  intro v
  induction v with
  | nil =>
      intro es hes e he
      rw [edgeListForAux] at hes
      cases hes
      cases he
  | cons tc rest ih =>
      intro es hes e he
      obtain ⟨t, c⟩ := tc
      rw [edgeListForAux] at hes
      split at hes
      · split at hes
        · cases hes
        · split at hes
          · cases hes
          · rename_i es' hes'
            cases hes
            rcases List.mem_cons.mp he with rfl | he'
            · rfl
            · exact ih es' hes' e he'
      · exact ih es hes e he

theorem edgeListForAux_ok_of_total_ne (R : String) (cutoff : Rat) (k : String)
    (total : Rat) (h : total ≠ 0) :
    ∀ v : List (String × Rat), ∃ es, edgeListForAux R cutoff k total v = .ok es := by
  intro v
  induction v with
  | nil => exact ⟨[], rfl⟩
  | cons tc rest ih =>
      obtain ⟨t, c⟩ := tc
      obtain ⟨es, hes⟩ := ih
      rw [edgeListForAux]
      by_cases hcond : cutoff ≤ c ∧ k ≠ "" ∧ t ≠ ""
      · rw [if_pos hcond, if_neg h, hes]
        exact ⟨(k, t, [(R, c / total)]) :: es, rfl⟩
      · rw [if_neg hcond]
        exact ⟨es, hes⟩

theorem edgeListForAux_nil_of_lt (R : String) (cutoff : Rat) (k : String)
    (total : Rat) :
    ∀ v : List (String × Rat), (∀ tc ∈ v, tc.2 < cutoff) →
      edgeListForAux R cutoff k total v = .ok [] := by
  intro v
  induction v with
  | nil => intro _; rfl
  | cons tc rest ih =>
      intro hlt
      obtain ⟨t, c⟩ := tc
      rw [edgeListForAux]
      have hc : ¬(cutoff ≤ c ∧ k ≠ "" ∧ t ≠ "") := by
        intro hcc
        exact absurd hcc.1 (not_le.mpr (hlt (t, c) (List.mem_cons_self _ _)))
      rw [if_neg hc]
      exact ih (fun x hx => hlt x (List.mem_cons_of_mem _ hx))

theorem counts_zero_of_sum_zero (v : List (String × Rat))
    (hnn : ∀ tc ∈ v, 0 ≤ tc.2) (hz : sumCounts v = 0) : ∀ tc ∈ v, tc.2 = 0 := by
  intro tc htc
  have hmem : tc.2 ∈ v.map (fun p => p.2) := List.mem_map_of_mem _ htc
  have hle : tc.2 ≤ (v.map (fun p => p.2)).sum := by
    apply List.single_le_sum _ _ hmem
    intro x hx
    obtain ⟨p, hp, rfl⟩ := List.mem_map.mp hx
    exact hnn p hp
  rw [show (v.map (fun p => p.2)).sum = sumCounts v from rfl, hz] at hle
  exact le_antisymm hle (hnn tc htc)

theorem nodup_key_eq {β : Type} (rm : List (String × β))
    (h : (rm.map Prod.fst).Nodup) (s : String) (vs : β) (hs : (s, vs) ∈ rm) :
    ∀ kv ∈ rm, kv.1 = s → kv.2 = vs := by
  induction rm with
  | nil => cases hs
  | cons p rest ih =>
      rw [List.map_cons, List.nodup_cons] at h
      intro kv hkv hk1
      rcases List.mem_cons.mp hs with heq | hs'
      · rcases List.mem_cons.mp hkv with rfl | hkv'
        · rw [← heq]
        · exfalso
          apply h.1
          have hp1 : p.1 = s := by rw [← heq]
          rw [hp1, ← hk1]
          exact List.mem_map_of_mem Prod.fst hkv'
      · rcases List.mem_cons.mp hkv with rfl | hkv'
        · exfalso
          apply h.1
          rw [hk1]
          exact List.mem_map_of_mem Prod.fst hs'
        · exact ih h.2 hs' kv hkv' hk1

theorem addEntitiesEdges_props (R : String) (cutoff : Rat) (hc : 0 < cutoff) :
    ∀ (rm : List (String × List (String × Rat))) (h : MultiGraph),
      (∀ kv ∈ rm, ∀ tc ∈ kv.2, 0 ≤ tc.2) →
      ∃ g', addEntitiesEdges R cutoff h rm = .ok g' ∧
        (∀ n a, nodeAttr h n a = some true → nodeAttr g' n a = some true) ∧
        (∀ s, (∀ kv ∈ rm, kv.1 ≠ s ∨ sumCounts kv.2 = 0) →
          edgesFrom g' s = edgesFrom h s) := by
  intro rm
  induction rm with
  | nil =>
      intro h _
      exact ⟨h, rfl, fun n a hh => hh, fun s _ => rfl⟩
  | cons kv rest ih =>
      intro h hnn
      obtain ⟨k, v⟩ := kv
      have hone : ∃ es, edgeListFor R cutoff k v = .ok es ∧ (∀ e ∈ es, e.1 = k) ∧
          (sumCounts v = 0 → es = []) := by
        by_cases hz : sumCounts v = 0
        · refine ⟨[], ?_, by simp, fun _ => rfl⟩
          unfold edgeListFor
          apply edgeListForAux_nil_of_lt
          intro tc htc
          have h0 : tc.2 = 0 :=
            counts_zero_of_sum_zero v
              (hnn (k, v) (List.mem_cons_self _ _)) hz tc htc
          rw [h0]; exact hc
        · obtain ⟨es, hes⟩ := edgeListForAux_ok_of_total_ne R cutoff k _ hz v
          exact ⟨es, hes, edgeListForAux_sources _ _ _ _ v es hes,
            fun hzz => absurd hzz hz⟩
      obtain ⟨es, hes, hsrc, hznil⟩ := hone
      obtain ⟨g', hg', hkeep', hedg'⟩ :=
        ih (es.foldl (fun h2 e => addEdgeAuto h2 e.1 e.2.1 e.2.2) h)
          (fun kv2 hkv2 tc htc => hnn kv2 (List.mem_cons_of_mem _ hkv2) tc htc)
      refine ⟨g', ?_, ?_, ?_⟩
      · rw [addEntitiesEdges, hes]
        exact hg'
      · intro n a hh
        exact hkeep' n a (foldl_addEdgeAuto_nodeAttr_keep es h n a hh)
      · intro s hcond
        rw [hedg' s (fun kv2 hkv2 => hcond kv2 (List.mem_cons_of_mem _ hkv2))]
        rcases hcond (k, v) (List.mem_cons_self _ _) with hne | hz0
        · exact foldl_addEdgeAuto_edgesFrom es h s
            (fun e he => by rw [hsrc e he]; exact hne)
        · rw [hznil hz0]
          rfl

theorem addEntitiesTag_edges (g : MultiGraph) (fr toE : String)
    (rm : List (String × List (String × Rat))) :
    (addEntitiesTag g fr toE rm).edges = g.edges := by
  unfold addEntitiesTag
  rw [foldl_setNodeAttr_edges, foldl_setNodeAttr_edges, foldl_addNodePlain_edges,
    foldl_addNodePlain_edges]

theorem addEntitiesTag_src (g : MultiGraph) (fr toE : String)
    (rm : List (String × List (String × Rat))) (s : String)
    (hs : s ∈ srcKeys rm) :
    nodeAttr (addEntitiesTag g fr toE rm) s fr = some true := by
  unfold addEntitiesTag
  apply foldl_setNodeAttr_nodeAttr_keep
  apply foldl_setNodeAttr_nodeAttr_mem _ _ _ _ hs
  apply foldl_addNodePlain_isSome_keep
  exact foldl_addNodePlain_isSome_mem _ _ _ hs

theorem addEntitiesTag_tgt (g : MultiGraph) (fr toE : String)
    (rm : List (String × List (String × Rat))) (t : String)
    (ht : t ∈ tgtKeys rm) :
    nodeAttr (addEntitiesTag g fr toE rm) t toE = some true := by
  unfold addEntitiesTag
  apply foldl_setNodeAttr_nodeAttr_mem _ _ _ _ ht
  apply foldl_setNodeAttr_isSome_keep
  exact foldl_addNodePlain_isSome_mem _ _ _ ht

/-- C1 amended: with non-negative raw counts and a strictly positive cutoff
(so that the zero-count targets are filtered out before the division at
`multigraph.py:109`), `add_entities` does not fail; a source whose raw
counts sum to zero is still tagged `from_role = true`, its non-empty target
keys are tagged `to_role = true`, and no edge leaving that source is
created.  (With `cutoff ≤ 0` the same call raises `ZeroDivisionError`, as
the counterexample shows.) -/
theorem C1_amended (g : MultiGraph) (fr toE R : String)
    (rm : List (String × List (String × Rat))) (cutoff : Rat)
    (s : String) (vs : List (String × Rat))
    (hnn : ∀ kv ∈ rm, ∀ tc ∈ kv.2, 0 ≤ tc.2)
    (hc : 0 < cutoff)
    (hk : (rm.map Prod.fst).Nodup)
    (hs : (s, vs) ∈ rm) (hsne : s ≠ "")
    (hz : sumCounts vs = 0) :
    ∃ g', add_entities g fr toE R rm cutoff = .ok g' ∧
      nodeAttr g' s fr = some true ∧
      (∀ tc ∈ vs, tc.1 ≠ "" → nodeAttr g' tc.1 toE = some true) ∧
      edgesFrom g' s = edgesFrom g s := by
  obtain ⟨g', hg', hkeep, hedg⟩ :=
    addEntitiesEdges_props R cutoff hc rm (addEntitiesTag g fr toE rm) hnn
  refine ⟨g', hg', ?_, ?_, ?_⟩
  · apply hkeep
    apply addEntitiesTag_src
    unfold srcKeys
    apply List.mem_filter.mpr
    refine ⟨?_, by simpa using hsne⟩
    exact List.mem_map_of_mem (fun p => p.1) hs
  · intro tc htc htne
    apply hkeep
    apply addEntitiesTag_tgt
    unfold tgtKeys
    apply List.mem_filter.mpr
    refine ⟨?_, by simpa using htne⟩
    refine List.mem_map.mpr ⟨tc, ?_, rfl⟩
    apply List.mem_flatten.mpr
    exact ⟨vs, List.mem_map_of_mem (fun p => p.2) hs, htc⟩
  · have htag : edgesFrom (addEntitiesTag g fr toE rm) s = edgesFrom g s := by
      unfold edgesFrom
      rw [addEntitiesTag_edges]
    rw [← htag]
    apply hedg
    intro kv hkv
    by_cases hkv1 : kv.1 = s
    · right
      rw [nodup_key_eq rm hk s vs hs kv hkv hkv1]
      exact hz
    · left
      exact hkv1

/-- Witness for C1 at a concrete zero-total source with cutoff 1. -/
theorem C1_amended_witness :
    ∃ g', add_entities MultiGraph.empty "F" "T" "R" [("a", [("b", 0)])] 1 =
        .ok g' ∧
      nodeAttr g' "a" "F" = some true ∧
      (∀ tc ∈ [(("b" : String), (0 : Rat))], tc.1 ≠ "" →
        nodeAttr g' tc.1 "T" = some true) ∧
      edgesFrom g' "a" = edgesFrom MultiGraph.empty "a" :=
  C1_amended MultiGraph.empty "F" "T" "R" [("a", [("b", 0)])] 1 "a" [("b", 0)]
    (by decide) (by decide) (by decide) (by decide) (by decide)
    (by with_unfolding_all decide)

theorem edgeListForAux_eq (R : String) (cutoff : Rat) (k : String) (total : Rat)
    (h : total ≠ 0) (v : List (String × Rat)) :
    edgeListForAux R cutoff k total v =
      .ok ((v.filter (fun tc => cutoff ≤ tc.2 ∧ k ≠ "" ∧ tc.1 ≠ "")).map
        (fun tc => (k, tc.1, [(R, tc.2 / total)]))) := by
  induction v with
  | nil => rfl
  | cons tc rest ih =>
      obtain ⟨t, c⟩ := tc
      rw [edgeListForAux]
      by_cases hcond : cutoff ≤ c ∧ k ≠ "" ∧ t ≠ ""
      · rw [if_pos hcond, if_neg h, ih, List.filter_cons_of_pos (by simpa using hcond),
          List.map_cons]
      · rw [if_neg hcond, ih, List.filter_cons_of_neg (by simpa using hcond)]

theorem list_sum_map_div (l : List Rat) (d : Rat) :
    (l.map (fun x => x / d)).sum = l.sum / d := by
  induction l with
  | nil => simp
  | cons x rest ih => simp [ih, add_div]

theorem addEdgeAuto_edge_mono (g : MultiGraph) (u v : String)
    (attrs : List (String × Rat)) (x : MGEdge) (h : x ∈ g.edges) :
    x ∈ (addEdgeAuto g u v attrs).edges := by
  unfold addEdgeAuto
  rw [show ({ addNodePlain (addNodePlain g u) v with
    edges := (addNodePlain (addNodePlain g u) v).edges ++
      [⟨u, v, newEdgeKey (addNodePlain (addNodePlain g u) v) u v, attrs⟩] } :
        MultiGraph).edges =
    (addNodePlain (addNodePlain g u) v).edges ++
      [⟨u, v, newEdgeKey (addNodePlain (addNodePlain g u) v) u v, attrs⟩] from rfl]
  rw [addNodePlain_edges, addNodePlain_edges]
  exact List.mem_append_left _ h

theorem addEdgeAuto_edge_new (g : MultiGraph) (u v : String)
    (attrs : List (String × Rat)) :
    ∃ key, (⟨u, v, key, attrs⟩ : MGEdge) ∈ (addEdgeAuto g u v attrs).edges := by
  refine ⟨newEdgeKey (addNodePlain (addNodePlain g u) v) u v, ?_⟩
  unfold addEdgeAuto
  exact List.mem_append_right _ (List.mem_singleton_self _)

theorem foldl_addEdgeAuto_edge_mono
    (es : List (String × String × List (String × Rat))) (g : MultiGraph)
    (x : MGEdge) (h : x ∈ g.edges) :
    x ∈ (es.foldl (fun h2 e => addEdgeAuto h2 e.1 e.2.1 e.2.2) g).edges := by
  induction es generalizing g with
  | nil => exact h
  | cons e rest ih =>
      rw [List.foldl_cons]
      exact ih _ (addEdgeAuto_edge_mono g e.1 e.2.1 e.2.2 x h)

theorem foldl_addEdgeAuto_edge_new
    (es : List (String × String × List (String × Rat))) (g : MultiGraph) :
    ∀ e ∈ es, ∃ key, (⟨e.1, e.2.1, key, e.2.2⟩ : MGEdge) ∈
      (es.foldl (fun h2 e2 => addEdgeAuto h2 e2.1 e2.2.1 e2.2.2) g).edges := by
  induction es generalizing g with
  | nil => intro e he; cases he
  | cons e0 rest ih =>
      intro e he
      rw [List.foldl_cons]
      rcases List.mem_cons.mp he with rfl | he'
      · obtain ⟨key, hkey⟩ := addEdgeAuto_edge_new g e.1 e.2.1 e.2.2
        exact ⟨key, foldl_addEdgeAuto_edge_mono rest _ _ hkey⟩
      · exact ih _ e he'

theorem addEntitiesEdges_edge_mono (R : String) (cutoff : Rat) :
    ∀ (rm : List (String × List (String × Rat))) (h : MultiGraph)
      (g' : MultiGraph), addEntitiesEdges R cutoff h rm = .ok g' →
      ∀ x ∈ h.edges, x ∈ g'.edges := by
  intro rm
  induction rm with
  | nil =>
      intro h g' hok x hx
      rw [addEntitiesEdges] at hok
      cases hok
      exact hx
  | cons kv rest ih =>
      intro h g' hok x hx
      obtain ⟨k, v⟩ := kv
      rw [addEntitiesEdges] at hok
      split at hok
      · cases hok
      · rename_i es hes
        exact ih _ g' hok x (foldl_addEdgeAuto_edge_mono es h x hx)

theorem addEntitiesEdges_planned (R : String) (cutoff : Rat) :
    ∀ (rm : List (String × List (String × Rat))) (h : MultiGraph)
      (g' : MultiGraph), addEntitiesEdges R cutoff h rm = .ok g' →
      ∀ k v, (k, v) ∈ rm →
        ∃ es, edgeListFor R cutoff k v = .ok es ∧
          ∀ e ∈ es, ∃ key, (⟨e.1, e.2.1, key, e.2.2⟩ : MGEdge) ∈ g'.edges := by
  intro rm
  induction rm with
  | nil => intro h g' _ k v hkv; cases hkv
  | cons kv0 rest ih =>
      intro h g' hok k v hkv
      obtain ⟨k0, v0⟩ := kv0
      rw [addEntitiesEdges] at hok
      split at hok
      · cases hok
      · rename_i es0 hes0
        rcases List.mem_cons.mp hkv with heq | hkv'
        · obtain ⟨heq1, heq2⟩ := Prod.mk.injEq .. ▸ heq
          subst heq1
          subst heq2
          refine ⟨es0, hes0, ?_⟩
          intro e he
          obtain ⟨key, hkey⟩ := foldl_addEdgeAuto_edge_new es0 h e he
          exact ⟨key, addEntitiesEdges_edge_mono R cutoff rest _ g' hok _ hkey⟩
        · exact ih _ g' hok k v hkv'

/-- C2 amended: for a source `k` with positive total raw count `T`, an edge
`(k, t, {R: c/T})` is planned if and only if the raw count satisfies
`c ≥ cutoff` (and `k`, `t` are non-empty) — the cutoff is compared against
the raw count, not the normalized weight —, every planned edge is created
in the resulting graph under some parallel-edge key, and the created
weights sum to (sum of included raw counts) / T. -/
theorem C2_amended (g : MultiGraph) (fr toE R : String)
    (rm : List (String × List (String × Rat))) (cutoff : Rat) (g' : MultiGraph)
    (hok : add_entities g fr toE R rm cutoff = .ok g')
    (k : String) (v : List (String × Rat))
    (hkv : (k, v) ∈ rm) (hT : 0 < sumCounts v) :
    ∃ es, edgeListFor R cutoff k v = .ok es ∧
      (∀ t c, (t, c) ∈ v →
        ((k, t, [(R, c / sumCounts v)]) ∈ es ↔ cutoff ≤ c ∧ k ≠ "" ∧ t ≠ "")) ∧
      (es.filterMap (fun e => alookup e.2.2 R)).sum =
        ((v.filter (fun tc => cutoff ≤ tc.2 ∧ k ≠ "" ∧ tc.1 ≠ "")).map
          Prod.snd).sum / sumCounts v ∧
      (∀ e ∈ es, ∃ key, (⟨e.1, e.2.1, key, e.2.2⟩ : MGEdge) ∈ g'.edges) := by
  have hT0 : sumCounts v ≠ 0 := ne_of_gt hT
  have hes : edgeListFor R cutoff k v =
      .ok ((v.filter (fun tc => cutoff ≤ tc.2 ∧ k ≠ "" ∧ tc.1 ≠ "")).map
        (fun tc => (k, tc.1, [(R, tc.2 / sumCounts v)]))) := by
    unfold edgeListFor
    exact edgeListForAux_eq R cutoff k (sumCounts v) hT0 v
  refine ⟨_, hes, ?_, ?_, ?_⟩
  · intro t c htc
    constructor
    · intro hmem
      obtain ⟨tc', htc', heq⟩ := List.mem_map.mp hmem
      obtain ⟨htc'm, htc'c⟩ := List.mem_filter.mp htc'
      have h1 : tc'.1 = t := by
        have := congrArg (fun p => p.2.1) heq
        simpa using this
      have h2 : tc'.2 / sumCounts v = c / sumCounts v := by
        have := congrArg (fun p => p.2.2) heq
        simp only [List.cons.injEq, Prod.mk.injEq] at this
        simpa using this
      have h3 : tc'.2 = c := by
        have hh := congrArg (fun x => x * sumCounts v) h2
        simpa [div_mul_cancel₀, hT0] using hh
      have hcond := of_decide_eq_true htc'c
      rw [h1, h3] at hcond
      exact hcond
    · intro hcond
      apply List.mem_map.mpr
      refine ⟨(t, c), List.mem_filter.mpr ⟨htc, decide_eq_true hcond⟩, rfl⟩
  · rw [List.filterMap_map]
    have : ∀ tc : String × Rat,
        (fun e => alookup e.2.2 R) ((fun tc => (k, tc.1, [(R, tc.2 / sumCounts v)])) tc) =
          some (tc.2 / sumCounts v) := by
      intro tc
      simp [alookup]
    rw [show ((fun e => alookup e.2.2 R) ∘
        (fun tc : String × Rat => (k, tc.1, [(R, tc.2 / sumCounts v)]))) =
      (fun tc : String × Rat => some (tc.2 / sumCounts v)) from funext this]
    rw [show (fun tc : String × Rat => some (tc.2 / sumCounts v)) =
      some ∘ (fun tc : String × Rat => tc.2 / sumCounts v) from rfl]
    rw [List.filterMap_eq_map]
    rw [show (fun tc : String × Rat => tc.2 / sumCounts v) =
      (fun x : Rat => x / sumCounts v) ∘ Prod.snd from rfl]
    rw [← List.map_map, list_sum_map_div]
  · intro e he
    unfold add_entities at hok
    obtain ⟨es2, hes2, hplan⟩ :=
      addEntitiesEdges_planned R cutoff rm _ g' hok k v hkv
    rw [hes] at hes2
    cases hes2
    exact hplan e he

/-- Witness for C2 at the concrete call of the counterexample (cutoff 1,
counts {b: 1, c: 1}). -/
theorem C2_amended_witness :
    ∃ es, edgeListFor "R" 1 "a" [("b", 1), ("c", 1)] = .ok es ∧
      (∀ t c, (t, c) ∈ [(("b" : String), (1 : Rat)), ("c", 1)] →
        (("a", t, [("R", c / sumCounts [(("b" : String), (1 : Rat)), ("c", 1)])]) ∈ es ↔
          (1 : Rat) ≤ c ∧ ("a" : String) ≠ "" ∧ t ≠ "")) ∧
      (es.filterMap (fun e => alookup e.2.2 "R")).sum =
        (([(("b" : String), (1 : Rat)), ("c", 1)].filter
          (fun tc => (1 : Rat) ≤ tc.2 ∧ ("a" : String) ≠ "" ∧ tc.1 ≠ "")).map
            Prod.snd).sum / sumCounts [(("b" : String), (1 : Rat)), ("c", 1)] ∧
      (∀ e ∈ es, ∃ key, (⟨e.1, e.2.1, key, e.2.2⟩ : MGEdge) ∈
        (⟨[("a", [("F", true)]), ("b", [("T", true)]), ("c", [("T", true)])],
          [⟨"a", "b", 0, [("R", 1/2)]⟩, ⟨"a", "c", 0, [("R", 1/2)]⟩]⟩ :
            MultiGraph).edges) :=
  C2_amended MultiGraph.empty "F" "T" "R" [("a", [("b", 1), ("c", 1)])] 1
    ⟨[("a", [("F", true)]), ("b", [("T", true)]), ("c", [("T", true)])],
      [⟨"a", "b", 0, [("R", 1/2)]⟩, ⟨"a", "c", 0, [("R", 1/2)]⟩]⟩
    (by with_unfolding_all decide) "a" [("b", 1), ("c", 1)]
    (by decide) (by with_unfolding_all decide)

theorem truthyOpt_iff (o : Option Rat) :
    truthyOpt o = true ↔ ∃ w, o = some w ∧ w ≠ 0 := by
  cases o with
  | none => simp [truthyOpt]
  | some x => simp [truthyOpt]

/-- C3 amended: with `overwrite = false`, an A-tagged node is skipped by the
overwrite guard exactly when it has some outgoing edge whose `R2` attribute
is present and truthy — the target's role-C tag plays no part — and a
skipped node contributes no entry to the `new_edges` plan. -/
theorem C3_amended (g : MultiGraph) (e R2 : String) :
    (skipCheck g e R2 = true ↔
      ∃ ed ∈ g.edges, ed.src = e ∧ ∃ w, alookup ed.attrs R2 = some w ∧ w ≠ 0) ∧
    (∀ roleB roleC R1 maxL f1 f2, skipCheck g e R2 = true →
      planEntity g roleB roleC R1 R2 false maxL f1 f2 e = .ok none) := by
  constructor
  · rw [show skipCheck g e R2 =
      decide (((edgesData g e R2).filter (fun p => truthyOpt p.2)) ≠ []) from rfl,
      decide_eq_true_iff]
    constructor
    · intro h
      obtain ⟨a, ha⟩ := List.exists_mem_of_ne_nil _ h
      have ha' := List.mem_filter.mp ha
      obtain ⟨ed, hed, heq⟩ := List.mem_map.mp ha'.1
      have hedf := List.mem_filter.mp hed
      have htr : truthyOpt a.2 = true := ha'.2
      rw [← heq] at htr
      obtain ⟨w, hw, hw0⟩ := (truthyOpt_iff _).mp htr
      exact ⟨ed, hedf.1, by simpa using hedf.2, w, hw, hw0⟩
    · rintro ⟨ed, hed, hsrc, w, hw, hw0⟩
      intro hnil
      have hmem : (ed.tgt, alookup ed.attrs R2) ∈ edgesData g e R2 := by
        apply List.mem_map.mpr
        refine ⟨ed, ?_, rfl⟩
        exact List.mem_filter.mpr ⟨hed, by simpa using hsrc⟩
      have hin : (ed.tgt, alookup ed.attrs R2) ∈
          (edgesData g e R2).filter (fun p => truthyOpt p.2) := by
        apply List.mem_filter.mpr
        exact ⟨hmem, (truthyOpt_iff _).mpr ⟨w, hw, hw0⟩⟩
      rw [hnil] at hin
      cases hin
  · intro roleB roleC R1 maxL f1 f2 hskip
    unfold planEntity
    rw [if_pos ⟨by decide, hskip⟩]

/-- Witness for C3: on the counterexample graph the skipped node `a`
produces no plan entry. -/
theorem C3_amended_witness :
    planEntity gC3 "B" "C" "R1" "R2" false 2 0 0 "a" = .ok none :=
  (C3_amended gC3 "a" "R2").2 "B" "C" "R1" 2 0 0 (by decide)

theorem freshFrom_ge (ks : List Nat) : ∀ (fuel k : Nat), k ≤ freshFrom ks k fuel := by
  intro fuel
  induction fuel with
  | zero => intro k; exact le_refl k
  | succ f ih =>
      intro k
      rw [freshFrom]
      split
      · exact le_trans (Nat.le_succ k) (ih (k + 1))
      · exact le_refl k

theorem newEdgeKey_ne_zero_of_mem (g : MultiGraph) (u v : String) (ed : MGEdge)
    (hmem : ed ∈ g.edges) (hsrc : ed.src = u) (htgt : ed.tgt = v) :
    newEdgeKey g u v ≠ 0 := by
  have h1 : ed.key ∈ keysBetween g u v := by
    unfold keysBetween
    apply List.mem_map_of_mem
    exact List.mem_filter.mpr ⟨hmem, by simp [hsrc, htgt]⟩
  have h2 : 0 < (keysBetween g u v).length := List.length_pos_of_mem h1
  have h3 : (keysBetween g u v).length ≤ newEdgeKey g u v := by
    unfold newEdgeKey
    exact freshFrom_ge _ _ _
  omega

theorem addEdgeAuto_edges (g : MultiGraph) (u v : String)
    (attrs : List (String × Rat)) :
    (addEdgeAuto g u v attrs).edges = g.edges ++ [⟨u, v, newEdgeKey g u v, attrs⟩] := by
  unfold addEdgeAuto
  have hne : newEdgeKey (addNodePlain (addNodePlain g u) v) u v = newEdgeKey g u v := by
    unfold newEdgeKey keysBetween
    rw [addNodePlain_edges, addNodePlain_edges]
  rw [show ({ addNodePlain (addNodePlain g u) v with
    edges := (addNodePlain (addNodePlain g u) v).edges ++
      [⟨u, v, newEdgeKey (addNodePlain (addNodePlain g u) v) u v, attrs⟩] } :
        MultiGraph).edges =
    (addNodePlain (addNodePlain g u) v).edges ++
      [⟨u, v, newEdgeKey (addNodePlain (addNodePlain g u) v) u v, attrs⟩] from rfl]
  rw [addNodePlain_edges, addNodePlain_edges, hne]

theorem setEdgeAttrList_found (u v : String) (k : Nat) (name : String) (val : Rat) :
    ∀ (l : List MGEdge) (ed : MGEdge),
      l.find? (fun e2 => decide (e2.src = u ∧ e2.tgt = v ∧ e2.key = k)) = some ed →
      ∃ l', setEdgeAttrList u v k name val l = some l' ∧
        ({ ed with attrs := aset ed.attrs name val } : MGEdge) ∈ l' := by
  intro l
  induction l with
  | nil => intro ed hed; cases hed
  | cons e rest ih =>
      intro ed hed
      rw [List.find?_cons] at hed
      split at hed
      · rename_i hp
        have hcond : e.src = u ∧ e.tgt = v ∧ e.key = k := of_decide_eq_true hp
        cases hed
        rw [setEdgeAttrList, if_pos hcond]
        exact ⟨_, rfl, List.mem_cons_self _ _⟩
      · rename_i hp
        have hcond : ¬(e.src = u ∧ e.tgt = v ∧ e.key = k) :=
          of_decide_eq_false hp
        obtain ⟨l', hl', hmem⟩ := ih ed hed
        rw [setEdgeAttrList, if_neg hcond, hl']
        exact ⟨e :: l', rfl, List.mem_cons_of_mem e hmem⟩

theorem setEdgeAttrList_append (u v : String) (k : Nat) (name : String) (val : Rat) :
    ∀ (l l2 l' : List MGEdge),
      setEdgeAttrList u v k name val l = some l' →
      setEdgeAttrList u v k name val (l ++ l2) = some (l' ++ l2) := by
  intro l
  induction l with
  | nil => intro l2 l' h; cases h
  | cons e rest ih =>
      intro l2 l' h
      rw [setEdgeAttrList] at h
      rw [List.cons_append, setEdgeAttrList]
      split at h
      · rename_i hcond
        cases h
        rw [if_pos hcond]
        rfl
      · rename_i hcond
        rw [if_neg hcond]
        cases hrest : setEdgeAttrList u v k name val rest with
        | none => rw [hrest] at h; cases h
        | some rest' =>
            rw [hrest] at h
            simp only [Option.map_some'] at h
            cases h
            rw [ih l2 rest' hrest]
            simp

/-- C10: when `infer_layer` records an inferred edge (`multigraph.py:196-197`),
the score is written onto the parallel edge with key 0.  If an edge between
the two nodes already exists (its first parallel edge occupying key 0, as
auto-assigned keys do), the attribute lands on that pre-existing edge,
while the newly added parallel edge gets a non-zero key and carries no
attributes. -/
theorem C10_key0_write (g : MultiGraph) (e t nr : String) (s : Rat) (ed : MGEdge)
    (h0 : g.edges.find? (fun e2 => decide (e2.src = e ∧ e2.tgt = t ∧ e2.key = 0)) =
      some ed) :
    ∃ g', applyOneEdge g e t nr s = .ok g' ∧
      newEdgeKey g e t ≠ 0 ∧
      (⟨e, t, newEdgeKey g e t, []⟩ : MGEdge) ∈ g'.edges ∧
      ({ ed with attrs := aset ed.attrs nr s } : MGEdge) ∈ g'.edges ∧
      alookup (aset ed.attrs nr s) nr = some s := by
  have hedp : ed ∈ g.edges := List.mem_of_find?_eq_some h0
  have hedc : ed.src = e ∧ ed.tgt = t ∧ ed.key = 0 := by
    have hh := List.find?_some h0
    simpa using hh
  obtain ⟨l', hl', hmem⟩ := setEdgeAttrList_found e t 0 nr s g.edges ed h0
  have happ := setEdgeAttrList_append e t 0 nr s g.edges
    [⟨e, t, newEdgeKey g e t, []⟩] l' hl'
  refine ⟨{ addEdgeAuto g e t [] with edges := l' ++ [⟨e, t, newEdgeKey g e t, []⟩] },
    ?_, ?_, ?_, ?_, aset_alookup_self ed.attrs nr s⟩
  · unfold applyOneEdge setEdgeAttr0
    rw [show (addEdgeAuto g e t []).edges =
      g.edges ++ [⟨e, t, newEdgeKey g e t, []⟩] from addEdgeAuto_edges g e t [],
      happ]
  · exact newEdgeKey_ne_zero_of_mem g e t ed hedp hedc.1 hedc.2.1
  · exact List.mem_append_right _ (List.mem_singleton_self _)
  · exact List.mem_append_left _ hmem


/-- Witness for C10: writing an inferred score over the pre-existing
key-0 edge of `gC10`. -/
theorem C10_key0_write_witness :
    ∃ g', applyOneEdge gC10 "a" "c" "R2" 7 = .ok g' ∧
      newEdgeKey gC10 "a" "c" ≠ 0 ∧
      (⟨"a", "c", newEdgeKey gC10 "a" "c", []⟩ : MGEdge) ∈ g'.edges ∧
      ({ (⟨"a", "c", 0, [("old", 5)]⟩ : MGEdge) with
        attrs := aset [(("old" : String), (5 : Rat))] "R2" 7 } : MGEdge) ∈ g'.edges ∧
      alookup (aset [(("old" : String), (5 : Rat))] "R2" 7) "R2" = some 7 :=
  by
  obtain ⟨g', h1, h2, h3, h4, h5⟩ :=
    C10_key0_write gC10 "a" "c" "R2" 7 ⟨"a", "c", 0, [("old", 5)]⟩ (by decide)
  exact ⟨g', h1, h2, h3, by simpa using h4, by simpa using h5⟩


theorem inferPlanLoop_mem (g : MultiGraph) (roleB roleC R1 R2 : String)
    (ov : Bool) (maxL : Nat) (f1 f2 : Rat) :
    ∀ (ents : List String) (acc plan : List (String × List (String × Rat))),
      inferPlanLoop g roleB roleC R1 R2 ov maxL f1 f2 acc ents = .ok plan →
      ∀ pr ∈ plan, pr ∈ acc ∨
        ∃ e ∈ ents, planEntity g roleB roleC R1 R2 ov maxL f1 f2 e = .ok (some pr) := by
  intro ents
  induction ents with
  | nil =>
      intro acc plan h pr hpr
      rw [inferPlanLoop] at h
      cases h
      exact Or.inl hpr
  | cons e rest ih =>
      intro acc plan h pr hpr
      rw [inferPlanLoop] at h
      split at h
      · cases h
      · rcases ih acc plan h pr hpr with hacc | ⟨e', he', hpe⟩
        · exact Or.inl hacc
        · exact Or.inr ⟨e', List.mem_cons_of_mem e he', hpe⟩
      · rename_i entry hentry
        rcases ih (acc ++ [entry]) plan h pr hpr with hacc | ⟨e', he', hpe⟩
        · rcases List.mem_append.mp hacc with h1 | h2
          · exact Or.inl h1
          · rw [List.mem_singleton.mp h2]
            exact Or.inr ⟨e, List.mem_cons_self e rest, hentry⟩
        · exact Or.inr ⟨e', List.mem_cons_of_mem e he', hpe⟩

theorem planEntity_some (g : MultiGraph) (roleB roleC R1 R2 : String) (ov : Bool)
    (maxL : Nat) (f1 f2 : Rat) (e : String) (pr : String × List (String × Rat))
    (h : planEntity g roleB roleC R1 R2 ov maxL f1 f2 e = .ok (some pr)) :
    ∃ agg, entityAggregate g roleB roleC R1 R2 f1 f2 e = .ok agg ∧
      pr = (e, (sortDescByScore agg).take maxL) := by
  unfold planEntity at h
  split at h
  · cases h
  · split at h
    · cases h
    · rename_i agg hagg
      cases h
      exact ⟨agg, hagg, rfl⟩

theorem mem_insertDesc (z x : String × Rat) (l : List (String × Rat)) :
    z ∈ insertDesc x l ↔ z = x ∨ z ∈ l := by
  induction l with
  | nil => simp [insertDesc]
  | cons y rest ih =>
      rw [insertDesc]
      split
      · simp [List.mem_cons]
      · rw [List.mem_cons, ih, List.mem_cons]
        tauto

theorem insertDesc_pairwise (x : String × Rat) (l : List (String × Rat))
    (h : l.Pairwise (fun a b => b.2 ≤ a.2)) :
    (insertDesc x l).Pairwise (fun a b => b.2 ≤ a.2) := by
  induction l with
  | nil => simp [insertDesc]
  | cons y rest ih =>
      rw [insertDesc]
      rw [List.pairwise_cons] at h
      by_cases hy : y.2 < x.2
      · rw [if_pos hy]
        apply List.Pairwise.cons
        · intro z hz
          rcases List.mem_cons.mp hz with rfl | hz'
          · exact le_of_lt hy
          · exact le_trans (h.1 z hz') (le_of_lt hy)
        · exact List.Pairwise.cons h.1 h.2
      · rw [if_neg hy]
        apply List.Pairwise.cons
        · intro z hz
          rcases (mem_insertDesc z x rest).mp hz with rfl | hz'
          · exact le_of_not_lt hy
          · exact h.1 z hz'
        · exact ih h.2

theorem sortDescByScore_pairwise_aux :
    ∀ (l acc : List (String × Rat)), acc.Pairwise (fun a b => b.2 ≤ a.2) →
      (l.foldl (fun acc2 x => insertDesc x acc2) acc).Pairwise
        (fun a b => b.2 ≤ a.2) := by
  intro l
  induction l with
  | nil => intro acc h; exact h
  | cons x rest ih =>
      intro acc h
      rw [List.foldl_cons]
      exact ih _ (insertDesc_pairwise x acc h)

theorem sortDescByScore_pairwise (l : List (String × Rat)) :
    (sortDescByScore l).Pairwise (fun a b => b.2 ≤ a.2) :=
  sortDescByScore_pairwise_aux l [] List.Pairwise.nil

theorem setEdgeAttrList_map_src (u v : String) (k : Nat) (name : String)
    (val : Rat) : ∀ (l l' : List MGEdge),
      setEdgeAttrList u v k name val l = some l' →
      l'.map MGEdge.src = l.map MGEdge.src := by
  intro l
  induction l with
  | nil => intro l' h; cases h
  | cons e rest ih =>
      intro l' h
      rw [setEdgeAttrList] at h
      split at h
      · cases h
        simp
      · cases hrest : setEdgeAttrList u v k name val rest with
        | none => rw [hrest] at h; cases h
        | some rest' =>
            rw [hrest] at h
            simp only [Option.map_some'] at h
            cases h
            simp [ih rest' hrest]

theorem countFrom_congr_of_map_src (g1 g2 : MultiGraph) (x : String)
    (h : g1.edges.map MGEdge.src = g2.edges.map MGEdge.src) :
    countFrom g1 x = countFrom g2 x := by
  unfold countFrom edgesFrom
  rw [← List.countP_eq_length_filter, ← List.countP_eq_length_filter]
  have h1 : g1.edges.countP (fun e => decide (e.src = x)) =
      (g1.edges.map MGEdge.src).countP (fun s => decide (s = x)) := by
    rw [List.countP_map]
    rfl
  have h2 : g2.edges.countP (fun e => decide (e.src = x)) =
      (g2.edges.map MGEdge.src).countP (fun s => decide (s = x)) := by
    rw [List.countP_map]
    rfl
  rw [h1, h2, h]

theorem applyOneEdge_count (g : MultiGraph) (e t nr : String) (s : Rat)
    (g' : MultiGraph) (h : applyOneEdge g e t nr s = .ok g') (x : String) :
    countFrom g' x = countFrom g x + (if x = e then 1 else 0) := by
  unfold applyOneEdge setEdgeAttr0 at h
  cases hset : setEdgeAttrList e t 0 nr s (addEdgeAuto g e t []).edges with
  | none => rw [hset] at h; cases h
  | some l' =>
      rw [hset] at h
      cases h
      have hsrc : l'.map MGEdge.src = (addEdgeAuto g e t []).edges.map MGEdge.src :=
        setEdgeAttrList_map_src _ _ _ _ _ _ l' hset
      have h1 : countFrom { addEdgeAuto g e t [] with edges := l' } x =
          countFrom (addEdgeAuto g e t []) x :=
        countFrom_congr_of_map_src _ _ x hsrc
      rw [h1]
      unfold countFrom edgesFrom
      rw [addEdgeAuto_edges, List.filter_append, List.length_append]
      by_cases hx : x = e
      · subst hx
        simp
      · have : ¬((⟨e, t, newEdgeKey g e t, []⟩ : MGEdge).src = x) := by
          simpa using fun heq => hx heq.symm
        simp [this, hx]

theorem applyEntityEdges_count (nr e : String) :
    ∀ (ts : List (String × Rat)) (h0 g' : MultiGraph),
      applyEntityEdges nr e h0 ts = .ok g' →
      ∀ x, countFrom g' x = countFrom h0 x + (if x = e then ts.length else 0) := by
  intro ts
  induction ts with
  | nil =>
      intro h0 g' h x
      rw [applyEntityEdges] at h
      cases h
      simp
  | cons ts0 rest ih =>
      intro h0 g' h x
      rw [applyEntityEdges] at h
      split at h
      · cases h
      · rename_i h1 hone
        have hstep := applyOneEdge_count h0 e ts0.1 nr ts0.2 h1 hone x
        have hrest := ih h1 g' h x
        rw [hrest, hstep]
        by_cases hx : x = e
        · simp [hx]
          omega
        · simp [hx]

theorem applyPlan_count (nr : String) :
    ∀ (plan : List (String × List (String × Rat))) (h0 g' : MultiGraph),
      applyPlan nr h0 plan = .ok g' →
      ∀ x, countFrom g' x = countFrom h0 x +
        ((plan.filter (fun pr => pr.1 = x)).map (fun pr => pr.2.length)).sum := by
  intro plan
  induction plan with
  | nil =>
      intro h0 g' h x
      rw [applyPlan] at h
      cases h
      simp
  | cons entry rest ih =>
      intro h0 g' h x
      rw [applyPlan] at h
      split at h
      · cases h
      · rename_i h1 hone
        have hstep := applyEntityEdges_count nr entry.1 entry.2 h0 h1 hone x
        have hrest := ih h1 g' h x
        rw [hrest, hstep, List.filter_cons]
        by_cases hx : x = entry.1
        · subst hx
          simp
          omega
        · have hd : ¬(entry.1 = x) := fun heq => hx heq.symm
          simp [hd, hx]

theorem inferPlanLoop_keys (g : MultiGraph) (roleB roleC R1 R2 : String)
    (ov : Bool) (maxL : Nat) (f1 f2 : Rat) :
    ∀ (ents : List String) (acc plan : List (String × List (String × Rat))),
      inferPlanLoop g roleB roleC R1 R2 ov maxL f1 f2 acc ents = .ok plan →
      List.Sublist (plan.map Prod.fst) (acc.map Prod.fst ++ ents) := by
  intro ents
  induction ents with
  | nil =>
      intro acc plan h
      rw [inferPlanLoop] at h
      cases h
      simp
  | cons e rest ih =>
      intro acc plan h
      rw [inferPlanLoop] at h
      split at h
      · cases h
      · have hsub := ih acc plan h
        apply hsub.trans
        exact List.Sublist.append_left (List.sublist_cons_self e rest) _
      · rename_i entry hentry
        obtain ⟨agg, _, hpr⟩ :=
          planEntity_some g roleB roleC R1 R2 ov maxL f1 f2 e entry hentry
        have hsub := ih (acc ++ [entry]) plan h
        apply hsub.trans
        rw [List.map_append, List.append_assoc]
        apply List.Sublist.append_left
        rw [hpr]
        simp

theorem filter_keys_single {α : Type} :
    ∀ (plan : List (String × α)), (plan.map Prod.fst).Nodup →
      ∀ pr ∈ plan, plan.filter (fun pr2 => pr2.1 = pr.1) = [pr] := by
  intro plan
  induction plan with
  | nil => intro _ pr hpr; cases hpr
  | cons q rest ih =>
      intro hN pr hpr
      rw [List.map_cons, List.nodup_cons] at hN
      rcases List.mem_cons.mp hpr with rfl | hpr'
      · rw [List.filter_cons_of_pos (by simp)]
        have hnil : rest.filter (fun pr2 => pr2.1 = pr.1) = [] := by
          apply List.filter_eq_nil_iff.mpr
          intro x hx
          simp only [decide_eq_true_eq]
          intro heq
          exact hN.1 (heq ▸ List.mem_map_of_mem Prod.fst hx)
        rw [hnil]
      · have hq : q.1 ≠ pr.1 := fun heq => hN.1 (heq ▸ List.mem_map_of_mem Prod.fst hpr')
        rw [List.filter_cons_of_neg (by simpa using hq)]
        exact ih hN.2 pr hpr'

theorem startingEntities_sublist (g : MultiGraph) (roleA : String) :
    List.Sublist (startingEntities g roleA) (g.nodes.map Prod.fst) := by
  unfold startingEntities
  generalize g.nodes = l
  induction l with
  | nil => simp
  | cons p rest ih =>
      rw [List.filterMap_cons, List.map_cons]
      by_cases hc : (alookup p.2 roleA = some true) ∧ p.1 ≠ ""
      · rw [if_pos hc]
        exact List.Sublist.cons₂ _ ih
      · rw [if_neg hc]
        exact List.Sublist.cons _ ih

/-- C6: `infer_layer` plans at most `max_links` new edges per starting
entity; the planned edges for an entity are exactly the top-`max_links` of
the stable descending sort of its accumulated C-target scores (in discovery
order); the planned scores are descending; an entity with no qualifying R1
neighbor gets no planned edges; and the applied graph gains exactly the
planned number of outgoing edges per entity (at most `max_links`), with
other nodes' outgoing edges untouched. -/
theorem C6_top_links (g : MultiGraph) (roleA roleB roleC R1 R2 : String)
    (ov : Bool) (maxL : Nat) (f1 f2 : Rat) (nr : String)
    (plan : List (String × List (String × Rat))) (g' : MultiGraph)
    (hplan : inferPlan g roleA roleB roleC R1 R2 ov maxL f1 f2 = .ok plan)
    (hrun : infer_layer g roleA roleB roleC R1 R2 ov maxL f1 f2 nr = .ok g')
    (hN : (g.nodes.map Prod.fst).Nodup) :
    (∀ pr ∈ plan, pr.2.length ≤ maxL ∧
      (∃ agg, entityAggregate g roleB roleC R1 R2 f1 f2 pr.1 = .ok agg ∧
        pr.2 = (sortDescByScore agg).take maxL) ∧
      pr.2.Pairwise (fun a b => b.2 ≤ a.2) ∧
      (collectQualified g roleB f1 (edgesData g pr.1 R1) = .ok [] → pr.2 = [])) ∧
    (∀ pr ∈ plan, countFrom g' pr.1 = countFrom g pr.1 + pr.2.length) ∧
    (∀ x, x ∉ plan.map Prod.fst → countFrom g' x = countFrom g x) := by
  have happ : applyPlan (if nr = "default" then R2 else nr) g plan = .ok g' := by
    unfold infer_layer at hrun
    rw [hplan] at hrun
    exact hrun
  have hcount := applyPlan_count (if nr = "default" then R2 else nr) plan g g' happ
  have hkeysN : (plan.map Prod.fst).Nodup := by
    have hsub := inferPlanLoop_keys g roleB roleC R1 R2 ov maxL f1 f2
      (startingEntities g roleA) [] plan hplan
    rw [List.map_nil, List.nil_append] at hsub
    exact List.Nodup.sublist (hsub.trans (startingEntities_sublist g roleA)) hN
  have hmain : ∀ pr ∈ plan,
      ∃ agg, entityAggregate g roleB roleC R1 R2 f1 f2 pr.1 = .ok agg ∧
        pr.2 = (sortDescByScore agg).take maxL := by
    intro pr hpr
    rcases inferPlanLoop_mem g roleB roleC R1 R2 ov maxL f1 f2
      (startingEntities g roleA) [] plan hplan pr hpr with hacc | ⟨e, _, hpe⟩
    · cases hacc
    · obtain ⟨agg, hagg, hpr2⟩ :=
        planEntity_some g roleB roleC R1 R2 ov maxL f1 f2 e pr hpe
      cases hpr2
      exact ⟨agg, hagg, rfl⟩
  refine ⟨?_, ?_, ?_⟩
  · intro pr hpr
    obtain ⟨agg, hagg, hpr2⟩ := hmain pr hpr
    refine ⟨?_, ⟨agg, hagg, hpr2⟩, ?_, ?_⟩
    · rw [hpr2]
      exact List.length_take_le _ _
    · rw [hpr2]
      exact List.Pairwise.sublist (List.take_sublist _ _) (sortDescByScore_pairwise agg)
    · intro hcq
      have hagg0 : (Except.ok ([] : List (String × Rat)) : Except PyErr _) =
          Except.ok agg := by
        unfold entityAggregate at hagg
        rw [hcq] at hagg
        exact hagg
      have hagg1 : agg = [] := by
        injection hagg0 with hh
        exact hh.symm
      rw [hpr2, hagg1]
      simp [sortDescByScore]
  · intro pr hpr
    rw [hcount pr.1, filter_keys_single plan hkeysN pr hpr]
    simp
  · intro x hx
    rw [hcount x]
    have hnil : plan.filter (fun pr => pr.1 = x) = [] := by
      apply List.filter_eq_nil_iff.mpr
      intro pr hpr
      simp only [decide_eq_true_eq]
      intro heq
      exact hx (heq ▸ List.mem_map_of_mem Prod.fst hpr)
    rw [hnil]
    simp


/-- Witness for C6: with `max_links = 1` on `gW`, the plan keeps only the
top-scored C-target and exactly one edge is added for the source. -/
theorem C6_top_links_witness :
    (∀ pr ∈ [(("a" : String), [(("c" : String), (3 : Rat)/4)])],
      pr.2.length ≤ 1 ∧
      (∃ agg, entityAggregate gW "B" "C" "R1" "R2" 0 0 pr.1 = .ok agg ∧
        pr.2 = (sortDescByScore agg).take 1) ∧
      pr.2.Pairwise (fun a b => b.2 ≤ a.2) ∧
      (collectQualified gW "B" 0 (edgesData gW pr.1 "R1") = .ok [] → pr.2 = [])) ∧
    (∀ pr ∈ [(("a" : String), [(("c" : String), (3 : Rat)/4)])],
      countFrom ⟨gW.nodes, gW.edges ++ [⟨"a", "c", 0, [("R2", 3/4)]⟩]⟩ pr.1 =
        countFrom gW pr.1 + pr.2.length) ∧
    (∀ x, x ∉ [(("a" : String), [(("c" : String), (3 : Rat)/4)])].map Prod.fst →
      countFrom ⟨gW.nodes, gW.edges ++ [⟨"a", "c", 0, [("R2", 3/4)]⟩]⟩ x =
        countFrom gW x) :=
  C6_top_links gW "A" "B" "C" "R1" "R2" false 1 0 0 "default"
    [("a", [("c", 3/4)])]
    ⟨gW.nodes, gW.edges ++ [⟨"a", "c", 0, [("R2", 3/4)]⟩]⟩
    (by with_unfolding_all decide) (by with_unfolding_all decide) (by decide)

theorem alookup_isSome_iff {α : Type} (l : List (String × α)) (k : String) :
    (alookup l k).isSome ↔ k ∈ l.map Prod.fst := by
  induction l with
  | nil => simp [alookup]
  | cons p rest ih =>
      rw [alookup, List.map_cons]
      by_cases hp : p.1 = k
      · simp [hp]
      · rw [if_neg hp]
        rw [ih, List.mem_cons]
        constructor
        · exact Or.inr
        · rintro (heq | hm)
          · exact absurd heq.symm hp
          · exact hm

theorem addNodePlain_of_isSome (g : MultiGraph) (n : String)
    (h : (alookup g.nodes n).isSome) : addNodePlain g n = g := by
  unfold addNodePlain
  cases hh : alookup g.nodes n with
  | none => rw [hh] at h; cases h
  | some attrs => rfl

theorem mergeEdgeAttrsList_none (u v : String) (k : Nat)
    (na : List (String × Rat)) :
    ∀ (l : List MGEdge), (∀ e ∈ l, ¬(e.src = u ∧ e.tgt = v ∧ e.key = k)) →
      mergeEdgeAttrsList u v k na l = none := by
  intro l
  induction l with
  | nil => intro _; rfl
  | cons e rest ih =>
      intro h
      rw [mergeEdgeAttrsList, if_neg (h e (List.mem_cons_self e rest))]
      rw [ih (fun x hx => h x (List.mem_cons_of_mem e hx))]
      rfl

theorem loadNodes_spec :
    ∀ (ns : List NLNode) (g0 : MultiGraph),
      (∀ n ∈ ns, alookup g0.nodes n.id = none) →
      (ns.map NLNode.id).Nodup →
      ns.foldl loadAddNode g0 =
        ⟨g0.nodes ++ ns.map (fun n => (n.id, n.attrs)), g0.edges⟩ := by
  intro ns
  induction ns with
  | nil => intro g0 _ _; simp
  | cons n rest ih =>
      intro g0 habs hnd
      rw [List.map_cons, List.nodup_cons] at hnd
      rw [List.foldl_cons]
      have hstep : loadAddNode g0 n =
          ⟨g0.nodes ++ [(n.id, n.attrs)], g0.edges⟩ := by
        unfold loadAddNode
        rw [habs n (List.mem_cons_self n rest)]
      rw [hstep]
      rw [ih ⟨g0.nodes ++ [(n.id, n.attrs)], g0.edges⟩ ?habs2 hnd.2]
      · simp
      · intro m hm
        rw [show (⟨g0.nodes ++ [(n.id, n.attrs)], g0.edges⟩ : MultiGraph).nodes =
          g0.nodes ++ [(n.id, n.attrs)] from rfl]
        rw [alookup_append_right (habs m (List.mem_cons_of_mem n hm))]
        rw [alookup]
        rw [if_neg, alookup]
        intro heq
        exact hnd.1 (heq ▸ List.mem_map_of_mem NLNode.id hm)

theorem loadLinks_spec :
    ∀ (ls : List NLLink) (g0 : MultiGraph),
      (∀ l ∈ ls, (alookup g0.nodes l.source).isSome ∧
        (alookup g0.nodes l.target).isSome) →
      (∀ l ∈ ls, ∀ e ∈ g0.edges,
        ¬(e.src = l.source ∧ e.tgt = l.target ∧ e.key = l.key)) →
      (ls.map (fun l => (l.source, l.target, l.key))).Nodup →
      ls.foldl loadAddEdge g0 =
        ⟨g0.nodes, g0.edges ++
          ls.map (fun l => ⟨l.source, l.target, l.key, l.attrs⟩)⟩ := by
  intro ls
  induction ls with
  | nil => intro g0 _ _ _; simp
  | cons l rest ih =>
      intro g0 hsome hnom hnd
      rw [List.map_cons, List.nodup_cons] at hnd
      rw [List.foldl_cons]
      have hstep : loadAddEdge g0 l =
          ⟨g0.nodes, g0.edges ++ [⟨l.source, l.target, l.key, l.attrs⟩]⟩ := by
        have h1 : addNodePlain (addNodePlain g0 l.source) l.target = g0 := by
          rw [addNodePlain_of_isSome g0 l.source
            (hsome l (List.mem_cons_self l rest)).1]
          exact addNodePlain_of_isSome g0 l.target
            (hsome l (List.mem_cons_self l rest)).2
        have h2 : mergeEdgeAttrsList l.source l.target l.key l.attrs g0.edges =
            none :=
          mergeEdgeAttrsList_none _ _ _ _ g0.edges
            (fun e he => hnom l (List.mem_cons_self l rest) e he)
        simp only [loadAddEdge, h1, h2]
      rw [hstep]
      have hA : ∀ m ∈ rest,
          (alookup (⟨g0.nodes, g0.edges ++
            [⟨l.source, l.target, l.key, l.attrs⟩]⟩ : MultiGraph).nodes
              m.source).isSome ∧
          (alookup (⟨g0.nodes, g0.edges ++
            [⟨l.source, l.target, l.key, l.attrs⟩]⟩ : MultiGraph).nodes
              m.target).isSome :=
        fun m hm => hsome m (List.mem_cons_of_mem l hm)
      have hB : ∀ m ∈ rest, ∀ e ∈ (⟨g0.nodes, g0.edges ++
          [⟨l.source, l.target, l.key, l.attrs⟩]⟩ : MultiGraph).edges,
          ¬(e.src = m.source ∧ e.tgt = m.target ∧ e.key = m.key) := by
        intro m hm e he
        rcases List.mem_append.mp he with hold | hnew
        · exact hnom m (List.mem_cons_of_mem l hm) e hold
        · rw [List.mem_singleton.mp hnew]
          intro hfalse
          obtain ⟨h1, h2, h3⟩ := hfalse
          apply hnd.1
          have heq3 : (l.source, l.target, l.key) = (m.source, m.target, m.key) := by
            simp_all
          rw [heq3]
          exact List.mem_map_of_mem _ hm
      rw [ih ⟨g0.nodes, g0.edges ++
        [(⟨l.source, l.target, l.key, l.attrs⟩ : MGEdge)]⟩ hA hB hnd.2]
      simp

/-- C7: for a well-formed graph, saving and then loading — in whatever
order the document's node and link lists end up serialized — yields a graph
structurally identical to the original: the same nodes with the same
attribute maps and the same keyed parallel edges with the same attribute
maps. -/
theorem C7_roundtrip (g : MultiGraph) (d : NodeLinkDoc)
    (hwf : WFGraph g)
    (hn : d.nodes.Perm (save g).nodes)
    (hl : d.links.Perm (save g).links) :
    structEq (load d) g := by
  obtain ⟨hwN, hwE, hwEnd⟩ := hwf
  have hsave_nodes_ids : (save g).nodes.map NLNode.id = g.nodes.map Prod.fst := by
    unfold save
    rw [List.map_map]
    rfl
  have hsave_links_tri : (save g).links.map (fun l => (l.source, l.target, l.key)) =
      g.edges.map (fun e => (e.src, e.tgt, e.key)) := by
    unfold save
    rw [List.map_map]
    rfl
  have hidsPerm : (d.nodes.map NLNode.id).Perm (g.nodes.map Prod.fst) := by
    have hh := hn.map NLNode.id
    rw [hsave_nodes_ids] at hh
    exact hh
  have hidsN : (d.nodes.map NLNode.id).Nodup := hidsPerm.nodup_iff.mpr hwN
  have htriPerm : (d.links.map (fun l => (l.source, l.target, l.key))).Perm
      (g.edges.map (fun e => (e.src, e.tgt, e.key))) := by
    have hh := hl.map (fun l => (l.source, l.target, l.key))
    rw [hsave_links_tri] at hh
    exact hh
  have htriN : (d.links.map (fun l => (l.source, l.target, l.key))).Nodup :=
    htriPerm.nodup_iff.mpr hwE
  have hnodes : d.nodes.foldl loadAddNode MultiGraph.empty =
      ⟨d.nodes.map (fun n => (n.id, n.attrs)), []⟩ := by
    rw [loadNodes_spec d.nodes MultiGraph.empty (fun n _ => rfl) hidsN]
    simp [MultiGraph.empty]
  have hmappedKeys : (d.nodes.map (fun n => (n.id, n.attrs))).map Prod.fst =
      d.nodes.map NLNode.id := by
    rw [List.map_map]
    rfl
  have hend : ∀ l ∈ d.links,
      (alookup (⟨d.nodes.map (fun n => (n.id, n.attrs)), []⟩ : MultiGraph).nodes
        l.source).isSome ∧
      (alookup (⟨d.nodes.map (fun n => (n.id, n.attrs)), []⟩ : MultiGraph).nodes
        l.target).isSome := by
    intro l hlmem
    have hlg : l ∈ (save g).links := hl.mem_iff.mp hlmem
    unfold save at hlg
    obtain ⟨e, he, rfl⟩ := List.mem_map.mp hlg
    have hsrc : e.src ∈ g.nodes.map Prod.fst :=
      (alookup_isSome_iff _ _).mp (hwEnd e he).1
    have htgt : e.tgt ∈ g.nodes.map Prod.fst :=
      (alookup_isSome_iff _ _).mp (hwEnd e he).2
    constructor
    · rw [alookup_isSome_iff, hmappedKeys]
      exact hidsPerm.mem_iff.mpr hsrc
    · rw [alookup_isSome_iff, hmappedKeys]
      exact hidsPerm.mem_iff.mpr htgt
  have hnom : ∀ l ∈ d.links,
      ∀ e ∈ (⟨d.nodes.map (fun n => (n.id, n.attrs)), []⟩ : MultiGraph).edges,
        ¬(e.src = l.source ∧ e.tgt = l.target ∧ e.key = l.key) :=
    fun l _ e he => absurd he (List.not_mem_nil e)
  have hload : load d = ⟨d.nodes.map (fun n => (n.id, n.attrs)),
      d.links.map (fun l => ⟨l.source, l.target, l.key, l.attrs⟩)⟩ := by
    unfold load
    rw [hnodes]
    rw [loadLinks_spec d.links ⟨d.nodes.map (fun n => (n.id, n.attrs)), []⟩
      hend hnom htriN]
    simp
  rw [hload]
  constructor
  · have hh := hn.map (fun n => (n.id, n.attrs))
    have hid : (save g).nodes.map (fun n => (n.id, n.attrs)) = g.nodes := by
      unfold save
      rw [List.map_map]
      rw [show ((fun (n : NLNode) => (n.id, n.attrs)) ∘
        (fun (p : String × List (String × Bool)) => (⟨p.1, p.2⟩ : NLNode))) =
          id from funext fun p => rfl]
      exact List.map_id _
    rw [hid] at hh
    exact hh
  · have hh := hl.map (fun l => (⟨l.source, l.target, l.key, l.attrs⟩ : MGEdge))
    have hid : (save g).links.map
        (fun l => (⟨l.source, l.target, l.key, l.attrs⟩ : MGEdge)) = g.edges := by
      unfold save
      rw [List.map_map]
      rw [show ((fun (l : NLLink) => (⟨l.source, l.target, l.key, l.attrs⟩ : MGEdge)) ∘
        (fun (e : MGEdge) => (⟨e.src, e.tgt, e.key, e.attrs⟩ : NLLink))) =
          id from funext fun e => rfl]
      exact List.map_id _
    rw [hid] at hh
    exact hh



/-- Witness for C7: loading the reordered document reproduces `gC7` up to
structural identity. -/
theorem C7_roundtrip_witness : structEq (load dC7) gC7 :=
  C7_roundtrip gC7 dC7 (by decide) (by decide) (by decide)
